import Mathlib

/-!
# Verification of the halo_weave brightness-scoring engine

A shallow embedding of the strategy framework found under
`tests/strategy_framework/` (base_strategy.py, voting_strategy.py,
symmetric_voting_strategy.py, magnitude_voting_strategy.py,
magnitude_voting_strategy_v2.py, magnitude_voting_strategy_v3.py,
cumulative_strategy.py).

Modelling choices:

* Attention values captured on disk are IEEE-754 float32; every float32 value
  is an exact rational number, so a step record carries a `List ℚ`.  The
  integer-valued voting strategies (Rolling Mean, Symmetric, Magnitude v1/v2/v3)
  perform arithmetic modelled exactly over `ℚ`.  The cumulative strategy uses
  `np.log` and `np.sqrt`, so its scores live in `ℝ`.
* Python dicts are modelled as insertion-ordered association lists
  (`ScoreMap α = List (ℕ × α)`); `store` is dict assignment (update in place
  if the key exists, append otherwise) and `lookup` is `dict.get`.
* Uncaught Python exceptions (numpy `reshape` size mismatch, `IndexError`,
  `ZeroDivisionError`, `max()`/`min()` on an empty sequence) are modelled as
  `Except.error` with a fixed message naming the raising operation.  A
  `json.JSONDecodeError` while reading a step file is caught by every
  strategy loop and modelled as the `StepFile.malformed` case being skipped.
* `float / 0.0` in numpy produces `inf` without raising; over `ℚ` the same
  expression evaluates to `0` (Lean's division-by-zero convention).  The one
  place this matters (the unguarded BOS threshold of magnitude voting v2/v3)
  is discussed at the corresponding theorems.
* Progress/diagnostic prints are omitted, with one exception: the
  end-of-run timing print of the magnitude variants divides the elapsed
  time by `len(token_files)` and so raises `ZeroDivisionError` on a capture
  directory with no token files at all; that division is modelled because
  it changes the functions' result.  The score-distribution prints
  (`min(score_values)` etc.) can only raise when the strategy's score dict
  is empty, i.e. when the token list supplies no (non-BOS) tokens; no
  theorem below asserts a successful result in that regime, so those prints
  are not modelled.
-/

namespace HaloWeave

/-- The per-token score dictionary: an insertion-ordered association list,
matching a Python dict keyed by token position. -/
abbrev ScoreMap (α : Type) : Type := List (ℕ × α)

/-- Dict lookup (`d.get(p)`): the value at the first matching key. -/
def lookup {α : Type} : ScoreMap α → ℕ → Option α
  | [], _ => none
  | e :: rest, p => if e.1 = p then some e.2 else lookup rest p

/-- Lookup with a default value; `defaultdict` access uses default `0`. -/
def lookupD {α : Type} (m : ScoreMap α) (p : ℕ) (d : α) : α :=
  (lookup m p).getD d

/-- Dict assignment (`d[p] = v`): overwrite the first matching key in place,
or append a new entry at the end (Python dicts preserve insertion order). -/
def store {α : Type} : ScoreMap α → ℕ → α → ScoreMap α
  | [], p, v => [(p, v)]
  | e :: rest, p, v => if e.1 = p then (p, v) :: rest else e :: store rest p v

/-- Python truncating `int()` conversion: round toward zero. -/
def pyInt (q : ℚ) : ℤ :=
  if q < 0 then -⌊-q⌋ else ⌊q⌋

/-! ## Capture data model (§3 of the spec, metadata.json / token files) -/

/-- The `attention_shape` triple: `(n_layers, n_heads, context_length)`. -/
structure Shape where
  nLayers : ℕ
  nHeads : ℕ
  contextLen : ℕ
deriving DecidableEq, Repr

/-- A prompt/context token from `metadata.json` (or the export file),
already filtered of `deleted` entries.  The `message_role`-or-`role`
spelling alternatives handled by `_group_tokens_by_sentence` are collapsed
into the single `role` field. -/
structure Token where
  position : ℕ
  text : String
  turnId : ℤ
  sentenceId : ℤ
  role : String
deriving DecidableEq, Repr

/-- One on-disk step record, as returned by `_load_token_files`.

* `malformed` — the JSON body does not parse (`json.JSONDecodeError`).
* `legacy att` — old combined format `token_<i>.json`; `att` is the embedded
  `attention` object (`shape`, `data`), `none` when the `attention` key is
  absent or falsy.  An empty `data` list is Python-falsy and is treated by
  `_load_token_data` the same as a missing payload, which the `Option` plus
  an `isEmpty` test below capture.
* `splitMeta sh bin` — new split format `token_<i>_meta.json`; `sh` is the
  `attention_shape` field (`none` when absent/falsy) and `bin` the contents
  of the sibling `_attn.bin` file (`none` when that file does not exist),
  read as raw float32 values with no length validation. -/
inductive StepFile where
  | malformed : StepFile
  | legacy : Option (Shape × List ℚ) → StepFile
  | splitMeta : Option Shape → Option (List ℚ) → StepFile
deriving DecidableEq, Repr

/-- The normalized record produced by `BrightnessStrategy._load_token_data`:
the `attention_data` and `attention_shape` entries of the returned dict. -/
structure LoadedStep where
  attention_data : Option (List ℚ)
  attention_shape : Option Shape
deriving DecidableEq, Repr

/-- Model of `BrightnessStrategy._load_token_data`.  A `malformed` file raises
(`json.JSONDecodeError`), which callers catch and turn into a skip.
For the legacy format the attention is used only when the `attention` object
and its `data` list are both truthy; for the split format the binary payload
is used whenever the `.bin` file exists and `attention_shape` is truthy,
with no check that its length matches the shape. -/
def loadTokenData : StepFile → Except String LoadedStep
  | .malformed => .error "json.JSONDecodeError"
  | .legacy none => .ok ⟨none, none⟩
  | .legacy (some (sh, d)) =>
      .ok (if d.isEmpty then ⟨none, none⟩ else ⟨some d, some sh⟩)
  | .splitMeta sh bin =>
      .ok (match sh, bin with
        | some s, some b => ⟨some b, some s⟩
        | _, _ => ⟨none, sh⟩)

/-- What the loader-based strategies extract from a step: the attention
payload when both `attention_data` and `attention_shape` are present
(`compute_scores` skips the step otherwise). -/
def loadedAttention (f : StepFile) : Except String (Option (Shape × List ℚ)) :=
  (loadTokenData f).map fun s =>
    match s.attention_data, s.attention_shape with
    | some d, some sh => some (sh, d)
    | _, _ => none

/-- What magnitude voting v1/v2 extract from a step: they bypass
`_load_token_data`, parse the JSON themselves and read the embedded legacy
`attention` object (`data['attention']['data']` and `['shape']`).  On a
split-format capture the discovered files are the `_meta.json` files, which
parse fine but have no `attention` key, so every step appears
attention-free. -/
def legacyAttention : StepFile → Except String (Option (Shape × List ℚ))
  | .malformed => .error "json.JSONDecodeError"
  | .legacy none => .ok none
  | .legacy (some (sh, d)) => .ok (if d.isEmpty then none else some (sh, d))
  | .splitMeta _ _ => .ok none

/-! ## Attention aggregation (§4.2) -/

/-- The mean-over-layers-and-heads vector: entry `c` is the mean of the
`nLayers * nHeads` tensor entries `(l, h, c)`; in row-major order entry
`(l, h, c)` of the flat array sits at index `(l * nHeads + h) * contextLen + c`,
so ranging `i` over `nLayers * nHeads` covers exactly those entries. -/
def aggValues (data : List ℚ) (sh : Shape) : List ℚ :=
  (List.range sh.contextLen).map fun c =>
    ((List.range (sh.nLayers * sh.nHeads)).map fun i =>
        data.getD (i * sh.contextLen + c) 0).sum / (sh.nLayers * sh.nHeads)

/-- Model of `BrightnessStrategy._aggregate_attention`: `np.array(data).reshape(shape)`
raises `ValueError` when the flat length differs from the product of the
shape, and this call is outside every strategy's try/except; otherwise the
tensor is reduced by `np.mean(tensor, axis=(0, 1))`. -/
def aggregateAttention (data : List ℚ) (sh : Shape) : Except String (List ℚ) :=
  if data.length = sh.nLayers * sh.nHeads * sh.contextLen then
    .ok (aggValues data sh)
  else
    .error "ValueError: cannot reshape"

/-- The `np.mean(aggregated)` value: the local mean used as the voting threshold. -/
def localMean (agg : List ℚ) : ℚ :=
  agg.sum / agg.length

/-! ## The shared per-strategy file loop

Every `compute_scores` iterates over the discovered step files with the same
skeleton: read the file (a decode error is caught, logged and skipped),
skip the step when no attention payload is present, and otherwise run the
per-step update, whose own exceptions (reshape/index/zero-division) are
uncaught and abort the run. -/

/-- The strategy loop over step files, parametrized by the reader
(`loadedAttention` for the `_load_token_data`-based strategies,
`legacyAttention` for magnitude voting v1/v2) and by the per-step state
update. -/
def runSteps {σ : Type}
    (read : StepFile → Except String (Option (Shape × List ℚ)))
    (process : σ → Shape → List ℚ → Except String σ) :
    σ → List StepFile → Except String σ
  | st, [] => .ok st
  | st, f :: rest =>
    match read f with
    | .error _ => runSteps read process st rest
    | .ok none => runSteps read process st rest
    | .ok (some (sh, d)) =>
      match process st sh d with
      | .error e => .error e
      | .ok st2 => runSteps read process st2 rest

/-- An index-tracking fold over the aggregated attention vector, the shape of
`for pos_idx, attn_value in enumerate(aggregated)` loops whose body
conditionally runs `scores[pos] = scores[pos] + delta`.  `f i a` returns
the target position and the delta, or `none` when the iteration makes no
update. -/
def stepFold (f : ℕ → ℚ → Option (ℕ × ℚ)) :
    ScoreMap ℚ → ℕ → List ℚ → ScoreMap ℚ
  | m, _, [] => m
  | m, i, a :: rest =>
    match f i a with
    | some (p, δ) => stepFold f (store m p (lookupD m p 0 + δ)) (i + 1) rest
    | none => stepFold f m (i + 1) rest

/-- How many iterations of `stepFold f` starting at index `i` update
position `p`. -/
def touchCount (f : ℕ → ℚ → Option (ℕ × ℚ)) (p : ℕ) : ℕ → List ℚ → ℕ
  | _, [] => 0
  | i, a :: rest =>
    (match f i a with
      | some (q, _) => if q = p then 1 else 0
      | none => 0) + touchCount f p (i + 1) rest

/-! ## Rolling Mean Voting (`voting_strategy.py`) -/

/-- The per-iteration rule of `VotingStrategy.compute_scores`: the attention
index must map to a known token, positions closer than `min_distance` to the
generation head (`shape[2] - pos_idx`) are skipped, and a position strictly
above the step's local mean earns one vote.  (The `attention_sum` /
`attention_count` accumulators of the source never reach the returned dict
and are omitted.) -/
def votingRule (tokens : List Token) (minDistance : ℤ) (C : ℕ) (mean : ℚ)
    (i : ℕ) (a : ℚ) : Option (ℕ × ℚ) :=
  match tokens[i]? with
  | none => none
  | some t =>
    if (C : ℤ) - (i : ℤ) < minDistance then none
    else if a > mean then some (t.position, 1) else none

/-- One attention-bearing step of Rolling Mean Voting. -/
def votingStep (tokens : List Token) (minDistance : ℤ) (st : ScoreMap ℚ)
    (sh : Shape) (d : List ℚ) : Except String (ScoreMap ℚ) :=
  (aggregateAttention d sh).map fun agg =>
    stepFold (votingRule tokens minDistance sh.contextLen (localMean agg)) st 0 agg

/-- Model of `VotingStrategy.compute_scores`: votes start as an empty
`defaultdict(int)` and the returned dict contains exactly the positions that
earned at least one vote. -/
def votingComputeScores (tokens : List Token) (minDistance : ℤ)
    (files : List StepFile) : Except String (ScoreMap ℚ) :=
  runSteps loadedAttention (votingStep tokens minDistance) [] files

/-! ## Symmetric Voting (`symmetric_voting_strategy.py`) -/

/-- Model of `scores = {}; for token in all_tokens: scores[token['position']] = 255`. -/
def initScores (tokens : List Token) : ScoreMap ℚ :=
  tokens.foldl (fun m t => store m t.position 255) []

/-- The per-iteration rule of `SymmetricVotingStrategy.compute_scores`:
`+1` strictly above the local mean, `-1` at or below it. -/
def symmetricRule (tokens : List Token) (mean : ℚ) (i : ℕ) (a : ℚ) :
    Option (ℕ × ℚ) :=
  match tokens[i]? with
  | none => none
  | some t => some (t.position, if a > mean then 1 else -1)

/-- One attention-bearing step of Symmetric Voting. -/
def symmetricStep (tokens : List Token) (st : ScoreMap ℚ) (sh : Shape)
    (d : List ℚ) : Except String (ScoreMap ℚ) :=
  (aggregateAttention d sh).map fun agg =>
    stepFold (symmetricRule tokens (localMean agg)) st 0 agg

/-- Model of `SymmetricVotingStrategy.compute_scores`. -/
def symmetricComputeScores (tokens : List Token) (files : List StepFile) :
    Except String (ScoreMap ℚ) :=
  runSteps loadedAttention (symmetricStep tokens) (initScores tokens) files

/-! ## Magnitude-Weighted Voting, baseline (`magnitude_voting_strategy.py`) -/

/-- The per-iteration rule of `MagnitudeVotingStrategy.compute_scores`:
`int(attention / mean)` above the mean, `-1` otherwise. -/
def magnitudeRule (tokens : List Token) (mean : ℚ) (i : ℕ) (a : ℚ) :
    Option (ℕ × ℚ) :=
  match tokens[i]? with
  | none => none
  | some t =>
    some (t.position, if a > mean then (pyInt (a / mean) : ℚ) else -1)

/-- One attention-bearing step of baseline Magnitude Voting. -/
def magnitudeStep (tokens : List Token) (st : ScoreMap ℚ) (sh : Shape)
    (d : List ℚ) : Except String (ScoreMap ℚ) :=
  (aggregateAttention d sh).map fun agg =>
    stepFold (magnitudeRule tokens (localMean agg)) st 0 agg

/-- Model of `MagnitudeVotingStrategy.compute_scores`.  This strategy opens each
file with `json.load` itself and reads the embedded legacy `attention`
object (`legacyAttention`); after the loop it prints per-file timing,
dividing the elapsed time by `len(token_files)` — a `ZeroDivisionError`
when the capture directory holds no token files at all. -/
def magnitudeComputeScores (tokens : List Token) (files : List StepFile) :
    Except String (ScoreMap ℚ) := do
  let st ← runSteps legacyAttention (magnitudeStep tokens) (initScores tokens) files
  if files.isEmpty then .error "ZeroDivisionError: timing report" else .ok st

/-! ## Magnitude-Weighted Voting v2 (`magnitude_voting_strategy_v2.py`) -/

/-- The `scores` dict of v2: only positions strictly greater than 0 are initialized
(BOS is excluded from scoring). -/
def initScoresV2 (tokens : List Token) : ScoreMap ℚ :=
  tokens.foldl (fun m t => if 0 < t.position then store m t.position 255 else m) []

/-- The `positions_array` of v2: the non-BOS token positions in token order. -/
def nonBosPositions (tokens : List Token) : List ℕ :=
  (tokens.filter fun t => 0 < t.position).map (·.position)

/-- Model of `threshold = (1.0 - bos_attention) / len(non_bos_attention)`, the O(1)
BOS-excluded threshold shared by v2 and v3. -/
def bosThreshold (bos : ℚ) (n : ℕ) : ℚ :=
  (1 - bos) / n

/-- The vectorized per-position update of v2/v3:
`+ratio` when strictly above the threshold, `-1` otherwise, with
`ratio = int(attention / threshold)` (`astype(int)` truncates toward zero). -/
def magDelta (threshold a : ℚ) : ℚ :=
  if a > threshold then (pyInt (a / threshold) : ℚ) else -1

/-- The position-walking loop of v2: iteration `i` updates the `i`-th
non-BOS position against `non_bos_attention[i]`. -/
def v2Fold (nonBos : List ℚ) (threshold : ℚ) :
    ScoreMap ℚ → ℕ → List ℕ → ScoreMap ℚ
  | m, _, [] => m
  | m, i, pos :: rest =>
    v2Fold nonBos threshold
      (store m pos (lookupD m pos 0 + magDelta threshold (nonBos.getD i 0)))
      (i + 1) rest

/-- One attention-bearing step of v2.  `aggregated[0]` raises `IndexError`
on an empty vector; `len(non_bos_attention)` equal to 0 makes the threshold
line raise `ZeroDivisionError` (an int divisor); otherwise the loop walks
`positions_array` against `non_bos_attention`, stopping at the shorter
(`if i >= len(non_bos_attention): break`). -/
def magnitudeV2Step (tokens : List Token) (st : ScoreMap ℚ) (sh : Shape)
    (d : List ℚ) : Except String (ScoreMap ℚ) := do
  let agg ← aggregateAttention d sh
  match agg with
  | [] => .error "IndexError: aggregated[0]"
  | bos :: aggRest =>
    let nonBos := aggRest.take (tokens.length - 1)
    if nonBos.isEmpty then .error "ZeroDivisionError: threshold" else
    .ok (v2Fold nonBos (bosThreshold bos nonBos.length) st 0
      ((nonBosPositions tokens).take nonBos.length))

/-- Model of `MagnitudeVotingStrategyV2.compute_scores` (legacy JSON reader, like v1,
including the end-of-run timing division by `len(token_files)`). -/
def magnitudeV2ComputeScores (tokens : List Token) (files : List StepFile) :
    Except String (ScoreMap ℚ) := do
  let st ← runSteps legacyAttention (magnitudeV2Step tokens) (initScoresV2 tokens) files
  if files.isEmpty then .error "ZeroDivisionError: timing report" else .ok st

/-! ## Magnitude-Weighted Voting v3 (`magnitude_voting_strategy_v3.py`) -/

/-- Model of `max(t['position'] for t in self.all_tokens)` (well-defined only for a
non-empty token list; `max()` on an empty sequence raises). -/
def maxPosition : List Token → ℕ
  | [] => 0
  | t :: rest => rest.foldl (fun acc u => max acc u.position) t.position

/-- One attention-bearing step of v3: the score array is indexed directly by
position; `context_len = min(len(aggregated), len(scores_array))`, and
`scores_array[1:context_len] += np.where(above_threshold, ratios, -1)`. -/
def magnitudeV3Step (scoresLen : ℕ) (arr : List ℚ) (sh : Shape)
    (d : List ℚ) : Except String (List ℚ) := do
  let agg ← aggregateAttention d sh
  match agg with
  | [] => .error "IndexError: aggregated[0]"
  | bos :: aggRest =>
    let contextLen := min agg.length scoresLen
    let nonBos := aggRest.take (contextLen - 1)
    if nonBos.isEmpty then .error "ZeroDivisionError: threshold" else
    let threshold := bosThreshold bos nonBos.length
    .ok (arr.mapIdx fun j v =>
      if 1 ≤ j ∧ j < contextLen then v + magDelta threshold (nonBos.getD (j - 1) 0)
      else v)

/-- Model of `MagnitudeVotingStrategyV3.compute_scores`: a numpy int32 array of
initial value 255 (0 at BOS index), indexed by token position; the final
dict keeps the non-BOS token positions.  An empty token list makes the
initial `max()` raise, and (as in v1/v2) the end-of-run timing print
divides the elapsed time by `len(token_files)`. -/
def magnitudeV3ComputeScores (tokens : List Token) (files : List StepFile) :
    Except String (ScoreMap ℚ) :=
  match tokens with
  | [] => .error "ValueError: max() arg is an empty sequence"
  | t0 :: trest =>
    let n := maxPosition (t0 :: trest) + 1
    let arr0 := (List.replicate n (255 : ℚ)).set 0 0
    do
      let arr ← runSteps loadedAttention (fun arr => magnitudeV3Step n arr) arr0 files
      if files.isEmpty then .error "ZeroDivisionError: timing report"
      else
        .ok ((t0 :: trest).foldl
          (fun m t => if 0 < t.position
            then store m t.position (arr.getD t.position 0) else m)
          [])

/-! ## Cumulative Brightness (`cumulative_strategy.py`) -/

/-- The `distance_mode` configuration values. -/
inductive DistanceMode where
  | noWeight | threshold | linear | logarithmic | squareRoot
deriving DecidableEq, Repr

/-- The `decay_mode` configuration values. -/
inductive DecayMode where
  | noDecay | additive | exponential
deriving DecidableEq, Repr

/-- Constructor configuration of `CumulativeStrategy`, plus the two numpy
library functions the weighting calls out to: `log` stands for `np.log` and
`sqrt` for `np.sqrt`.  They are carried as opaque-to-the-model function
parameters (float-in/float-out, hence `ℚ → ℚ` here) so that every theorem
about the strategy holds for the actual transcendental implementations. -/
structure CumulativeParams where
  decayRate : ℚ
  decayMode : DecayMode
  distanceMode : DistanceMode
  minDistance : ℤ
  distanceScale : ℚ
  log : ℚ → ℚ
  sqrt : ℚ → ℚ

/-- Model of `CumulativeStrategy._apply_distance_weight`.  Mode `'none'` returns the
raw attention immediately, before the minimum-distance filter; every other
mode returns 0 below `min_distance` and otherwise scales by the
mode-specific multiplier. -/
def applyDistanceWeight (p : CumulativeParams) (rawAttention : ℚ)
    (distance : ℤ) : ℚ :=
  match p.distanceMode with
  | .noWeight => rawAttention
  | mode =>
    if distance < p.minDistance then 0
    else
      let multiplier : ℚ :=
        match mode with
        | .noWeight => 1
        | .threshold => if p.minDistance ≤ distance then 1 else 0
        | .linear => (distance : ℚ) / p.distanceScale
        | .logarithmic => p.log ((distance : ℚ) + 1) / p.log (p.distanceScale + 1)
        | .squareRoot => p.sqrt (distance : ℚ) / p.sqrt p.distanceScale
      rawAttention * multiplier

/-- Model of `CumulativeStrategy._calculate_decay`. -/
def calculateDecay (p : CumulativeParams) (currentScore : ℚ) : ℚ :=
  match p.decayMode with
  | .noDecay => 0
  | .additive => p.decayRate
  | .exponential => currentScore * p.decayRate

/-- The per-position update loop of `CumulativeStrategy.compute_scores`;
`scores` is a `defaultdict(float)`, so reading `scores[pos]` materializes
the key with value 0 even when the net update is zero. -/
def cumulativeFold (tokens : List Token) (p : CumulativeParams) (C : ℕ) :
    ScoreMap ℚ → ℕ → List ℚ → ScoreMap ℚ
  | m, _, [] => m
  | m, i, a :: rest =>
    match tokens[i]? with
    | none => cumulativeFold tokens p C m (i + 1) rest
    | some t =>
      let distance : ℤ := (C : ℤ) - (i : ℤ)
      let weighted := applyDistanceWeight p a distance
      let oldScore := lookupD m t.position 0
      cumulativeFold tokens p C
        (store m t.position (oldScore + weighted - calculateDecay p oldScore))
        (i + 1) rest

/-- One attention-bearing step of the cumulative strategy. -/
def cumulativeStep (tokens : List Token) (p : CumulativeParams)
    (st : ScoreMap ℚ) (sh : Shape) (d : List ℚ) : Except String (ScoreMap ℚ) :=
  (aggregateAttention d sh).map fun agg =>
    cumulativeFold tokens p sh.contextLen st 0 agg

/-- Model of `CumulativeStrategy.compute_scores`: scores start as an empty
`defaultdict(float)` ("fail dark"). -/
def cumulativeComputeScores (tokens : List Token) (p : CumulativeParams)
    (files : List StepFile) : Except String (ScoreMap ℚ) :=
  runSteps loadedAttention (cumulativeStep tokens p) [] files

/-! ## Sentence aggregation (`BrightnessStrategy._group_tokens_by_sentence`) -/

/-- The per-token dict appended to a sentence group. -/
structure SentTok where
  position : ℕ
  text : String
  score : ℚ
  turnId : ℤ
  sentenceId : ℤ
  role : String
deriving DecidableEq, Repr

/-- A `(turn_id, sentence_id, role)` grouping key. -/
abbrev GroupKey : Type := ℤ × ℤ × String

/-- The `ScoredSentence` container of base_strategy.py. -/
structure ScoredSentence where
  turnId : ℤ
  sentenceId : ℤ
  role : String
  tokens : List SentTok
  score : ℚ
  tokenCount : ℕ
  text : String
deriving DecidableEq, Repr

/-- A `defaultdict(list)` append: extend the group of `k` in place, or create
it at the end (dict iteration follows key-insertion order). -/
def addToGroup : List (GroupKey × List SentTok) → GroupKey → SentTok →
    List (GroupKey × List SentTok)
  | [], k, s => [(k, [s])]
  | g :: rest, k, s =>
    if g.1 = k then (g.1, g.2 ++ [s]) :: rest else g :: addToGroup rest k s

/-- The grouping pass: walk `self.prompt_tokens` in order, keeping the
tokens whose position has a score. -/
def buildGroups (tokens : List Token) (scored : ScoreMap ℚ) :
    List (GroupKey × List SentTok) :=
  tokens.foldl
    (fun gs t =>
      match lookup scored t.position with
      | some sc =>
        addToGroup gs (t.turnId, t.sentenceId, t.role)
          ⟨t.position, t.text, sc, t.turnId, t.sentenceId, t.role⟩
      | none => gs)
    []

/-- Model of `max(t['score'] for t in tokens)`: Python's `max` over a non-empty
sequence is a left fold of the binary max; the `[]` case is unreachable
because groups are created non-empty. -/
def peakScore : List SentTok → ℚ
  | [] => 0
  | s :: rest => rest.foldl (fun acc u => max acc u.score) s.score

/-- Build one `ScoredSentence` from a group. -/
def mkScoredSentence (k : GroupKey) (toks : List SentTok) : ScoredSentence :=
  ⟨k.1, k.2.1, k.2.2, toks, peakScore toks, toks.length,
    String.join (toks.map (·.text))⟩

/-- Model of `result.sort(key=lambda s: s.score, reverse=True)`: stable descending
sort by peak score. -/
def groupTokensBySentence (tokens : List Token) (scored : ScoreMap ℚ) :
    List ScoredSentence :=
  (((buildGroups tokens scored).map fun g => mkScoredSentence g.1 g.2).mergeSort
    fun a b => decide (b.score ≤ a.score))

/-! ## `BrightnessStrategy.run` and the score statistics -/

/-- The `score_stats` block of the run metadata. -/
structure ScoreStats where
  min : ℚ
  max : ℚ
  mean : ℚ
  median : ℚ
deriving DecidableEq, Repr

/-- Model of `np.median`: sort, take the middle element (odd length) or the average
of the two middle elements (even length). -/
def medianOf (l : List ℚ) : ℚ :=
  let s := l.mergeSort fun a b => decide (a ≤ b)
  if l.length % 2 = 1 then s.getD (l.length / 2) 0
  else (s.getD (l.length / 2 - 1) 0 + s.getD (l.length / 2) 0) / 2

/-- The statistics over `scored_tokens.values()`:
`min()` (and then `max()`) of an empty sequence raises `ValueError`. -/
def scoreStats (m : ScoreMap ℚ) : Except String ScoreStats :=
  match m.map (·.2) with
  | [] => .error "ValueError: min() arg is an empty sequence"
  | v :: vs =>
    .ok ⟨vs.foldl min v, vs.foldl max v,
      (v :: vs).sum / (v :: vs).length, medianOf (v :: vs)⟩

/-- The tail of `BrightnessStrategy.run` after `compute_scores`: group the
scored tokens into ranked sentences, then build the metadata (whose
`score_stats` entry evaluates the min/max/mean/median of the score map). -/
def runStrategy (tokens : List Token) (scored : ScoreMap ℚ) :
    Except String (List ScoredSentence × ScoreStats) :=
  let sentences := groupTokensBySentence tokens scored
  (scoreStats scored).map fun st => (sentences, st)

/-- The `VotingStrategy` executed through `BrightnessStrategy.run`. -/
def votingRun (tokens : List Token) (minDistance : ℤ)
    (files : List StepFile) : Except String (List ScoredSentence × ScoreStats) := do
  let scored ← votingComputeScores tokens minDistance files
  runStrategy tokens scored

/-! ## Relating the two on-disk formats -/

/-- A legacy step file and a split-format step file that hold numerically
identical attention data: either both carry the same shape and the same
(non-empty) float32 payload, or neither carries an attention payload, or
both are unparsable. -/
inductive FormatMatch : StepFile → StepFile → Prop
  | attn (sh : Shape) (d : List ℚ) (hne : d ≠ []) :
      FormatMatch (.legacy (some (sh, d))) (.splitMeta (some sh) (some d))
  | noAttn : FormatMatch (.legacy none) (.splitMeta none none)
  | bad : FormatMatch .malformed .malformed

/-- A step file whose attention payload (as seen through `_load_token_data`)
has a flat length different from the product of its shape: feeding it to
`_aggregate_attention` raises the reshape `ValueError`. -/
def stepCrashes (f : StepFile) : Bool :=
  match loadedAttention f with
  | .ok (some (sh, d)) => d.length != sh.nLayers * sh.nHeads * sh.contextLen
  | _ => false

/-- A step file carrying no attention payload for either reader: malformed
JSON, a legacy record with a falsy `attention` object, or a split record
missing its shape or its binary sibling. -/
def inertStep : StepFile → Bool
  | .malformed => true
  | .legacy none => true
  | .legacy (some (_, d)) => d.isEmpty
  | .splitMeta sh bin => sh.isNone || bin.isNone

/-- The aggregated attention of a step that loads cleanly and reshapes
without error, together with its shape. -/
def goodAgg (f : StepFile) : Option (Shape × List ℚ) :=
  match loadedAttention f with
  | .ok (some (sh, d)) =>
    if d.length = sh.nLayers * sh.nHeads * sh.contextLen
      then some (sh, aggValues d sh) else none
  | _ => none

/-- A valid attention-bearing step (for the `_load_token_data` strategies,
and in the absence of reshape crashes). -/
def hasAttention (f : StepFile) : Bool :=
  (goodAgg f).isSome

/-! ## Per-file pure updates and concrete captures used in the claims -/

/-- The pure state transformer of one step file for Rolling Mean Voting
(identity for skipped files), valid when the file does not crash. -/
def votingFileUpdate (tokens : List Token) (minDistance : ℤ) (m : ScoreMap ℚ)
    (f : StepFile) : ScoreMap ℚ :=
  match goodAgg f with
  | some (sh, agg) =>
    stepFold (votingRule tokens minDistance sh.contextLen (localMean agg)) m 0 agg
  | none => m

/-- The number of votes position `p` earns from one step file. -/
def fileVotes (tokens : List Token) (minDistance : ℤ) (p : ℕ) (f : StepFile) : ℕ :=
  match goodAgg f with
  | some (sh, agg) =>
    touchCount (votingRule tokens minDistance sh.contextLen (localMean agg)) p 0 agg
  | none => 0

/-- The pure state transformer of one step file for Symmetric Voting. -/
def symmetricFileUpdate (tokens : List Token) (m : ScoreMap ℚ)
    (f : StepFile) : ScoreMap ℚ :=
  match goodAgg f with
  | some (_, agg) => stepFold (symmetricRule tokens (localMean agg)) m 0 agg
  | none => m

/-- The three-token capture used to witness C6. -/
def c6Tokens : List Token :=
  [⟨0, "a", 0, 0, "user"⟩, ⟨1, "b", 0, 0, "user"⟩, ⟨2, "c", 0, 0, "user"⟩]

/-- Two attention-bearing steps with aggregated vectors
`[3/5, 1/4, 3/20]` and `[1/2, 1/10, 2/5]` (both of local mean `1/3`). -/
def c6Files : List StepFile :=
  [.legacy (some (⟨1, 1, 3⟩, [3/5, 1/4, 3/20])),
   .legacy (some (⟨1, 1, 3⟩, [1/2, 1/10, 2/5]))]

/-- The two-token capture used for C1, in both formats with identical
float32 payloads. -/
def c1Tokens : List Token := [⟨0, "a", 0, 0, "user"⟩, ⟨1, "b", 0, 0, "user"⟩]

/-- Legacy representation: one combined record with embedded attention. -/
def c1Legacy : List StepFile := [.legacy (some (⟨1, 1, 2⟩, [3/4, 1/4]))]

/-- Split representation of the numerically identical step. -/
def c1Split : List StepFile := [.splitMeta (some ⟨1, 1, 2⟩) (some [3/4, 1/4])]

/-! ## Dictionary lemmas -/

@[simp] theorem lookup_nil {α : Type} (p : ℕ) :
    lookup ([] : ScoreMap α) p = none := rfl

theorem lookup_store {α : Type} (m : ScoreMap α) (p q : ℕ) (v : α) :
    lookup (store m p v) q = if q = p then some v else lookup m q := by
  induction m with
  | nil =>
    by_cases h : q = p
    · subst h; simp [store, lookup]
    · have h2 : ¬ p = q := fun hc => h hc.symm
      simp [store, lookup, h, h2]
  | cons e rest ih =>
    by_cases he : e.1 = p
    · subst he
      by_cases hq : q = e.1
      · subst hq; simp [store, lookup]
      · have h2 : ¬ e.1 = q := fun hc => hq hc.symm
        simp [store, lookup, hq, h2]
    · by_cases hq : q = p
      · subst hq
        have h2 : ¬ e.1 = q := he
        simp [store, lookup, he, h2, ih]
      · by_cases heq : e.1 = q
        · simp [store, lookup, he, heq, ih, hq]
        · simp [store, lookup, he, heq, ih, hq]

theorem lookupD_store {α : Type} (m : ScoreMap α) (p q : ℕ) (v d : α) :
    lookupD (store m p v) q d = if q = p then v else lookupD m q d := by
  by_cases h : q = p <;> simp [lookupD, lookup_store, h]

@[simp] theorem length_aggValues (data : List ℚ) (sh : Shape) :
    (aggValues data sh).length = sh.contextLen := by
  simp [aggValues]

theorem loadTokenData_formatMatch {f g : StepFile} (h : FormatMatch f g) :
    loadTokenData f = loadTokenData g := by
  cases h with
  | attn sh d hne => simp [loadTokenData, List.isEmpty_iff, hne]
  | noAttn => rfl
  | bad => rfl

theorem loadedAttention_formatMatch {f g : StepFile} (h : FormatMatch f g) :
    loadedAttention f = loadedAttention g := by
  unfold loadedAttention
  rw [loadTokenData_formatMatch h]

theorem inertStep_loadedAttention {f : StepFile} (h : inertStep f = true) :
    ∀ sh d, loadedAttention f ≠ .ok (some (sh, d)) := by
  intro sh d
  cases f with
  | malformed => simp [loadedAttention, loadTokenData, Except.map]
  | legacy att =>
    cases att with
    | none => simp [loadedAttention, loadTokenData, Except.map]
    | some sd =>
      have hd : sd.2.isEmpty = true := h
      simp [loadedAttention, loadTokenData, hd, Except.map]
  | splitMeta sh2 bin =>
    cases sh2 with
    | none => simp [loadedAttention, loadTokenData, Except.map]
    | some s =>
      cases bin with
      | none => simp [loadedAttention, loadTokenData, Except.map]
      | some b => simp [inertStep] at h

theorem inertStep_legacyAttention {f : StepFile} (h : inertStep f = true) :
    ∀ sh d, legacyAttention f ≠ .ok (some (sh, d)) := by
  intro sh d
  cases f with
  | malformed => simp [legacyAttention]
  | legacy att =>
    cases att with
    | none => simp [legacyAttention]
    | some sd =>
      have hd : sd.2.isEmpty = true := h
      simp [legacyAttention, hd]
  | splitMeta sh2 bin => simp [legacyAttention]

/-- A run over files none of which yields an attention payload leaves the
strategy state untouched. -/
theorem runSteps_skip {σ : Type}
    (read : StepFile → Except String (Option (Shape × List ℚ)))
    (process : σ → Shape → List ℚ → Except String σ) :
    ∀ (files : List StepFile),
      (∀ f ∈ files, ∀ sh d, read f ≠ .ok (some (sh, d))) →
      ∀ st : σ, runSteps read process st files = .ok st := by
  intro files
  induction files with
  | nil => intro _ st; rfl
  | cons f rest ih =>
    intro h st
    have hrest := fun g hg => h g (List.mem_cons_of_mem f hg)
    have hf := h f (List.mem_cons_self f rest)
    simp only [runSteps]
    rcases hread : read f with e | o
    · exact ih hrest st
    · rcases o with _ | ⟨sh, d⟩
      · exact ih hrest st
      · exact absurd hread (hf sh d)

/-- When every per-step update succeeds, the run is the plain left fold of
the per-file pure update. -/
theorem runSteps_eq_foldl {σ : Type}
    (read : StepFile → Except String (Option (Shape × List ℚ)))
    (process : σ → Shape → List ℚ → Except String σ)
    (update : σ → StepFile → σ) :
    ∀ (files : List StepFile),
      (∀ f ∈ files, ∀ st : σ,
        match read f with
        | .ok (some (sh, d)) => process st sh d = .ok (update st f)
        | _ => update st f = st) →
      ∀ st : σ, runSteps read process st files = .ok (files.foldl update st) := by
  intro files
  induction files with
  | nil => intro _ st; rfl
  | cons f rest ih =>
    intro h st
    have hrest := fun g hg => h g (List.mem_cons_of_mem f hg)
    have hf := h f (List.mem_cons_self f rest) st
    simp only [runSteps, List.foldl_cons]
    rcases hread : read f with e | o
    · rw [hread] at hf
      have hf2 : update st f = st := hf
      dsimp only
      rw [hf2]
      exact ih hrest st
    · rcases o with _ | ⟨sh, d⟩
      · rw [hread] at hf
        have hf2 : update st f = st := hf
        dsimp only
        rw [hf2]
        exact ih hrest st
      · rw [hread] at hf
        have hf2 : process st sh d = .ok (update st f) := hf
        dsimp only
        rw [hf2]
        exact ih hrest (update st f)

/-- When some file's per-step update raises and every earlier file's update
succeeds, the run aborts with that error. -/
theorem runSteps_error_of_crash {σ : Type}
    (read : StepFile → Except String (Option (Shape × List ℚ)))
    (process : σ → Shape → List ℚ → Except String σ)
    (msg : String) (crash : StepFile → Bool) :
    ∀ (files : List StepFile),
      (∀ f, crash f = true → ∀ st : σ,
        ∃ sh d, read f = .ok (some (sh, d)) ∧ process st sh d = .error msg) →
      (∀ f ∈ files, crash f = false → ∀ st : σ,
        match read f with
        | .ok (some (sh, d)) => ∃ st2, process st sh d = .ok st2
        | _ => True) →
      (∃ f ∈ files, crash f = true) →
      ∀ st : σ, runSteps read process st files = .error msg := by
  intro files
  induction files with
  | nil => intro _ _ hex st; exact absurd hex (by simp)
  | cons f rest ih =>
    intro hcrash hok hex st
    simp only [runSteps]
    by_cases hf : crash f = true
    · obtain ⟨sh, d, hread, hproc⟩ := hcrash f hf st
      rw [hread]
      dsimp only
      rw [hproc]
    · have hf2 : crash f = false := by
        cases hcf : crash f
        · rfl
        · exact absurd hcf hf
      have hexr : ∃ g ∈ rest, crash g = true := by
        rcases hex with ⟨g, hg, hcg⟩
        rcases List.mem_cons.mp hg with rfl | hgr
        · exact absurd hcg hf
        · exact ⟨g, hgr, hcg⟩
      have hokr := fun g hg => hok g (List.mem_cons_of_mem f hg)
      have hokf := hok f (List.mem_cons_self f rest) hf2 st
      rcases hread : read f with e | o
      · exact ih hcrash hokr hexr st
      · rcases o with _ | ⟨sh, d⟩
        · exact ih hcrash hokr hexr st
        · rw [hread] at hokf
          obtain ⟨st2, hst2⟩ := hokf
          dsimp only
          rw [hst2]
          exact ih hcrash hokr hexr st2

/-! ## Lookup lemmas for the indexed score folds -/

/-- When every update of a `stepFold` pass is a `+1` vote, the final value
at `p` is the prior value plus the number of touches, and `p` enters the
dict exactly when it is touched. -/
theorem lookup_stepFold_count (f : ℕ → ℚ → Option (ℕ × ℚ)) (p : ℕ)
    (hδ : ∀ j a q δ, f j a = some (q, δ) → δ = 1) :
    ∀ (l : List ℚ) (i : ℕ) (m : ScoreMap ℚ),
      lookup (stepFold f m i l) p =
        if touchCount f p i l = 0 then lookup m p
        else some (lookupD m p 0 + (touchCount f p i l : ℚ)) := by
  intro l
  induction l with
  | nil => intro i m; simp [stepFold, touchCount]
  | cons a rest ih =>
    intro i m
    rcases hf : f i a with _ | ⟨q, δ⟩
    · simp only [stepFold, touchCount, hf]
      simpa using ih (i + 1) m
    · have hδ1 : δ = 1 := hδ i a q δ hf
      subst hδ1
      by_cases hq : q = p
      · subst hq
        simp only [stepFold, touchCount, hf, if_pos rfl]
        rw [ih (i + 1) (store m q (lookupD m q 0 + 1))]
        have hl : lookup (store m q (lookupD m q 0 + 1)) q
            = some (lookupD m q 0 + 1) := by
          simp [lookup_store]
        have hd : lookupD (store m q (lookupD m q 0 + 1)) q 0
            = lookupD m q 0 + 1 := by
          simp [lookupD_store]
        by_cases hz : touchCount f q (i + 1) rest = 0
        · rw [if_pos hz, hz, hl]
          norm_num
        · have hnz : ¬ (1 + touchCount f q (i + 1) rest = 0) := by omega
          rw [if_neg hz]
          simp only [if_true]
          rw [if_neg hnz, hd]
          congr 1
          push_cast
          ring
      · have hq2 : ¬ p = q := fun hc => hq hc.symm
        simp only [stepFold, touchCount, hf, if_neg hq]
        rw [ih (i + 1) (store m q (lookupD m q 0 + 1))]
        have hl : lookup (store m q (lookupD m q 0 + 1)) p = lookup m p := by
          simp [lookup_store, hq2]
        have hd : lookupD (store m q (lookupD m q 0 + 1)) p 0 = lookupD m p 0 := by
          simp [lookupD_store, hq2]
        simp [hl, hd]

/-- A `stepFold` pass none of whose iterations targets `p` leaves the value
at `p` unchanged. -/
theorem lookup_stepFold_untouched (f : ℕ → ℚ → Option (ℕ × ℚ)) (p : ℕ) :
    ∀ (l : List ℚ) (i : ℕ) (m : ScoreMap ℚ),
      (∀ k a q δ, f (i + k) a = some (q, δ) → q ≠ p) →
      lookup (stepFold f m i l) p = lookup m p := by
  intro l
  induction l with
  | nil => intro i m _; rfl
  | cons a rest ih =>
    intro i m h
    have hshift : ∀ k a2 q2 δ2, f (i + 1 + k) a2 = some (q2, δ2) → q2 ≠ p :=
      fun k a2 q2 δ2 hk =>
        h (1 + k) a2 q2 δ2
          (by rw [show i + (1 + k) = i + 1 + k by omega]; exact hk)
    rcases hf : f i a with _ | ⟨q, δ⟩
    · simp only [stepFold, hf]
      exact ih (i + 1) m hshift
    · have hq : q ≠ p := h 0 a q δ (by simpa using hf)
      have hq2 : ¬ p = q := fun hc => hq hc.symm
      simp only [stepFold, hf]
      rw [ih (i + 1) _ hshift]
      simp [lookup_store, hq2]

/-- A `stepFold` pass exactly one of whose iterations targets `p` (at offset
`k`, with delta `σv`) adds `σv` to the value at `p`. -/
theorem lookup_stepFold_single (f : ℕ → ℚ → Option (ℕ × ℚ)) (p : ℕ) :
    ∀ (l : List ℚ) (i k : ℕ) (m : ScoreMap ℚ) (v σv : ℚ),
      lookup m p = some v →
      k < l.length →
      f (i + k) (l.getD k 0) = some (p, σv) →
      (∀ j a q δ, f j a = some (q, δ) → q = p → j = i + k) →
      lookup (stepFold f m i l) p = some (v + σv) := by
  intro l
  induction l with
  | nil => intro i k m v σv _ hk; exact absurd hk (by simp)
  | cons a rest ih =>
    intro i k m v σv hv hk hf htouch
    cases k with
    | zero =>
      have hfa : f i a = some (p, σv) := by simpa using hf
      simp only [stepFold, hfa]
      have hd : lookupD m p 0 = v := by simp [lookupD, hv]
      rw [hd]
      rw [lookup_stepFold_untouched f p rest (i + 1)
        (store m p (v + σv))
        (fun k2 a2 q2 δ2 hk2 hqp => by
          have hj := htouch (i + 1 + k2) a2 q2 δ2 hk2 hqp
          omega)]
      simp [lookup_store]
    | succ k2 =>
      have hf2 : f (i + 1 + k2) (rest.getD k2 0) = some (p, σv) := by
        rw [show i + 1 + k2 = i + (k2 + 1) by omega]
        simpa using hf
      have htouch2 : ∀ j a2 q2 δ2, f j a2 = some (q2, δ2) → q2 = p →
          j = i + 1 + k2 := fun j a2 q2 δ2 hj hq2 => by
        have := htouch j a2 q2 δ2 hj hq2
        omega
      rcases hfa : f i a with _ | ⟨q, δ⟩
      · simp only [stepFold, hfa]
        exact ih (i + 1) k2 m v σv hv (by simpa using hk) hf2 htouch2
      · have hq : ¬ p = q := by
          intro hqp
          have := htouch i a q δ hfa hqp.symm
          omega
        simp only [stepFold, hfa]
        have hv2 : lookup (store m q (lookupD m q 0 + δ)) p = some v := by
          simp [lookup_store, hq, hv]
        exact ih (i + 1) k2 _ v σv hv2 (by simpa using hk) hf2 htouch2

/-! ## Per-file characterization of Rolling Mean Voting -/

theorem votingRule_delta (tokens : List Token) (minDistance : ℤ) (C : ℕ)
    (mean : ℚ) (j : ℕ) (a : ℚ) (q : ℕ) (δ : ℚ)
    (h : votingRule tokens minDistance C mean j a = some (q, δ)) : δ = 1 := by
  unfold votingRule at h
  split at h
  · exact absurd h (by simp)
  · split at h
    · exact absurd h (by simp)
    · split at h
      · simp only [Option.some.injEq, Prod.mk.injEq] at h
        exact h.2.symm
      · exact absurd h (by simp)

theorem stepCrashes_true_elim {f : StepFile} (h : stepCrashes f = true) :
    ∃ sh d, loadedAttention f = .ok (some (sh, d)) ∧
      ¬ d.length = sh.nLayers * sh.nHeads * sh.contextLen := by
  unfold stepCrashes at h
  rcases hload : loadedAttention f with e | o
  · rw [hload] at h; exact absurd h (by simp)
  · rcases o with _ | ⟨sh, d⟩
    · rw [hload] at h; exact absurd h (by simp)
    · rw [hload] at h
      refine ⟨sh, d, rfl, ?_⟩
      simpa using h

theorem stepCrashes_false_len {f : StepFile} {sh : Shape} {d : List ℚ}
    (h : stepCrashes f = false)
    (hload : loadedAttention f = .ok (some (sh, d))) :
    d.length = sh.nLayers * sh.nHeads * sh.contextLen := by
  unfold stepCrashes at h
  rw [hload] at h
  simpa using h

theorem goodAgg_of_load {f : StepFile} {sh : Shape} {d : List ℚ}
    (hload : loadedAttention f = .ok (some (sh, d)))
    (hlen : d.length = sh.nLayers * sh.nHeads * sh.contextLen) :
    goodAgg f = some (sh, aggValues d sh) := by
  unfold goodAgg
  rw [hload]
  dsimp only
  rw [if_pos hlen]

theorem goodAgg_none {f : StepFile}
    (h : ∀ sh d, loadedAttention f ≠ .ok (some (sh, d))) :
    goodAgg f = none := by
  unfold goodAgg
  rcases hload : loadedAttention f with e | o
  · rfl
  · rcases o with _ | ⟨sh, d⟩
    · rfl
    · exact absurd hload (h sh d)

theorem aggregateAttention_ok {d : List ℚ} {sh : Shape}
    (h : d.length = sh.nLayers * sh.nHeads * sh.contextLen) :
    aggregateAttention d sh = .ok (aggValues d sh) := by
  unfold aggregateAttention
  rw [if_pos h]

theorem aggregateAttention_error {d : List ℚ} {sh : Shape}
    (h : ¬ d.length = sh.nLayers * sh.nHeads * sh.contextLen) :
    aggregateAttention d sh = .error "ValueError: cannot reshape" := by
  unfold aggregateAttention
  rw [if_neg h]

/-- On crash-free captures, `VotingStrategy.compute_scores` is the plain
fold of the per-file updates. -/
theorem votingComputeScores_eq_foldl (tokens : List Token) (minDistance : ℤ)
    (files : List StepFile) (h : ∀ f ∈ files, stepCrashes f = false) :
    votingComputeScores tokens minDistance files =
      .ok (files.foldl (votingFileUpdate tokens minDistance) []) := by
  unfold votingComputeScores
  refine runSteps_eq_foldl _ _ _ files ?_ []
  intro f hf st
  rcases hload : loadedAttention f with e | o
  · dsimp only
    unfold votingFileUpdate
    rw [goodAgg_none (fun sh d hc => by rw [hload] at hc; exact Except.noConfusion hc)]
  · rcases o with _ | ⟨sh, d⟩
    · dsimp only
      unfold votingFileUpdate
      rw [goodAgg_none (fun sh d hc => by rw [hload] at hc; simp at hc)]
    · dsimp only
      have hlen := stepCrashes_false_len (h f hf) hload
      unfold votingStep
      rw [aggregateAttention_ok hlen]
      unfold votingFileUpdate
      rw [goodAgg_of_load hload hlen]
      simp [Except.map]

/-- On captures with a crashing record, the run aborts with the reshape
error. -/
theorem votingComputeScores_error (tokens : List Token) (minDistance : ℤ)
    (files : List StepFile) (hnb : ∃ f ∈ files, stepCrashes f = true) :
    votingComputeScores tokens minDistance files =
      .error "ValueError: cannot reshape" := by
  unfold votingComputeScores
  refine runSteps_error_of_crash _ _ _ stepCrashes files ?_ ?_ hnb []
  · intro f hf st
    obtain ⟨sh, d, hload, hlen⟩ := stepCrashes_true_elim hf
    refine ⟨sh, d, hload, ?_⟩
    unfold votingStep
    rw [aggregateAttention_error hlen]
    rfl
  · intro f _ hf st
    rcases hload : loadedAttention f with e | o
    · trivial
    · rcases o with _ | ⟨sh, d⟩
      · trivial
      · dsimp only
        have hlen := stepCrashes_false_len hf hload
        exact ⟨_, by unfold votingStep; rw [aggregateAttention_ok hlen]; rfl⟩

theorem lookup_votingFileUpdate (tokens : List Token) (minDistance : ℤ)
    (p : ℕ) (m : ScoreMap ℚ) (f : StepFile) :
    lookup (votingFileUpdate tokens minDistance m f) p =
      if fileVotes tokens minDistance p f = 0 then lookup m p
      else some (lookupD m p 0 + (fileVotes tokens minDistance p f : ℚ)) := by
  unfold votingFileUpdate fileVotes
  rcases goodAgg f with _ | ⟨sh, agg⟩
  · simp
  · exact lookup_stepFold_count _ p
      (fun j a q δ => votingRule_delta tokens minDistance sh.contextLen
        (localMean agg) j a q δ) agg 0 m

/-- The value at `p` after folding a list of step files is the prior value
plus the total votes `p` earns across the files, and `p` is a key exactly
when that total is positive. -/
theorem lookup_votingFoldl (tokens : List Token) (minDistance : ℤ) (p : ℕ) :
    ∀ (files : List StepFile) (m : ScoreMap ℚ),
      lookup (files.foldl (votingFileUpdate tokens minDistance) m) p =
        if (files.map (fileVotes tokens minDistance p)).sum = 0 then lookup m p
        else some (lookupD m p 0 +
          ((files.map (fileVotes tokens minDistance p)).sum : ℚ)) := by
  intro files
  induction files with
  | nil => intro m; simp
  | cons f rest ih =>
    intro m
    simp only [List.foldl_cons, List.map_cons, List.sum_cons]
    rw [ih (votingFileUpdate tokens minDistance m f)]
    by_cases hc : fileVotes tokens minDistance p f = 0
    · have hl : lookup (votingFileUpdate tokens minDistance m f) p = lookup m p := by
        rw [lookup_votingFileUpdate, if_pos hc]
      have hd : lookupD (votingFileUpdate tokens minDistance m f) p 0
          = lookupD m p 0 := by
        unfold lookupD
        rw [hl]
      rw [hl, hd, hc]
      simp
    · have hl : lookup (votingFileUpdate tokens minDistance m f) p
          = some (lookupD m p 0 + (fileVotes tokens minDistance p f : ℚ)) := by
        rw [lookup_votingFileUpdate, if_neg hc]
      have hd : lookupD (votingFileUpdate tokens minDistance m f) p 0
          = lookupD m p 0 + (fileVotes tokens minDistance p f : ℚ) := by
        unfold lookupD
        rw [hl]
        rfl
      have hnz : ¬ (fileVotes tokens minDistance p f
          + (rest.map (fileVotes tokens minDistance p)).sum = 0) := by
        omega
      rw [hl, hd, if_neg hnz]
      by_cases hz : (rest.map (fileVotes tokens minDistance p)).sum = 0
      · rw [if_pos hz, hz]
        norm_num
      · rw [if_neg hz]
        congr 1
        push_cast
        ring

/-! ## Per-file characterization of Symmetric Voting -/

/-- On crash-free captures, `SymmetricVotingStrategy.compute_scores` is the
plain fold of the per-file updates over the 255-initialized scores. -/
theorem symmetricComputeScores_eq_foldl (tokens : List Token)
    (files : List StepFile) (h : ∀ f ∈ files, stepCrashes f = false) :
    symmetricComputeScores tokens files =
      .ok (files.foldl (symmetricFileUpdate tokens) (initScores tokens)) := by
  unfold symmetricComputeScores
  refine runSteps_eq_foldl _ _ _ files ?_ (initScores tokens)
  intro f hf st
  rcases hload : loadedAttention f with e | o
  · dsimp only
    unfold symmetricFileUpdate
    rw [goodAgg_none (fun sh d hc => by rw [hload] at hc; exact Except.noConfusion hc)]
  · rcases o with _ | ⟨sh, d⟩
    · dsimp only
      unfold symmetricFileUpdate
      rw [goodAgg_none (fun sh d hc => by rw [hload] at hc; simp at hc)]
    · dsimp only
      have hlen := stepCrashes_false_len (h f hf) hload
      unfold symmetricStep
      rw [aggregateAttention_ok hlen]
      unfold symmetricFileUpdate
      rw [goodAgg_of_load hload hlen]
      simp [Except.map]

theorem symmetricRule_elim {tokens : List Token} {mean : ℚ} {j : ℕ} {a : ℚ}
    {q : ℕ} {δ : ℚ} (h : symmetricRule tokens mean j a = some (q, δ)) :
    ∃ u, tokens[j]? = some u ∧ q = u.position := by
  unfold symmetricRule at h
  rcases hj : tokens[j]? with _ | u
  · rw [hj] at h; exact absurd h (by simp)
  · rw [hj] at h
    simp only [Option.some.injEq, Prod.mk.injEq] at h
    exact ⟨u, rfl, h.1.symm⟩

/-- Two distinct token-list indices cannot map to the same position when the
positions are pairwise distinct. -/
theorem position_index_unique {tokens : List Token}
    (hnodup : (tokens.map Token.position).Nodup)
    {i j : ℕ} {t u : Token} (hi : tokens[i]? = some t)
    (hj : tokens[j]? = some u) (hpos : u.position = t.position) : j = i := by
  have hilt : i < tokens.length := by
    by_contra hlt
    rw [List.getElem?_eq_none (by omega)] at hi
    exact Option.noConfusion hi
  have hjlt : j < tokens.length := by
    by_contra hlt
    rw [List.getElem?_eq_none (by omega)] at hj
    exact Option.noConfusion hj
  have hmap_i : (tokens.map Token.position)[i]? = some t.position := by
    rw [List.getElem?_map, hi]
    rfl
  have hmap_j : (tokens.map Token.position)[j]? = some u.position := by
    rw [List.getElem?_map, hj]
    rfl
  have heq : (tokens.map Token.position)[j]? = (tokens.map Token.position)[i]? := by
    rw [hmap_i, hmap_j, hpos]
  exact List.getElem?_inj (by simpa using hjlt) hnodup heq

theorem lookup_store255_preserve (l : List Token) :
    ∀ (m : ScoreMap ℚ) (p : ℕ), lookup m p = some 255 →
      lookup (l.foldl (fun m t => store m t.position 255) m) p = some 255 := by
  induction l with
  | nil => intro m p h; exact h
  | cons u rest ih =>
    intro m p h
    simp only [List.foldl_cons]
    apply ih
    by_cases hq : p = u.position
    · rw [lookup_store, if_pos hq]
    · rw [lookup_store, if_neg hq]
      exact h

theorem lookup_initScores_aux (l : List Token) :
    ∀ (m : ScoreMap ℚ) (t : Token), t ∈ l →
      lookup (l.foldl (fun m t => store m t.position 255) m) t.position
        = some 255 := by
  induction l with
  | nil => intro m t h; exact absurd h (List.not_mem_nil t)
  | cons u rest ih =>
    intro m t h
    simp only [List.foldl_cons]
    rcases List.mem_cons.mp h with rfl | hr
    · apply lookup_store255_preserve
      rw [lookup_store, if_pos rfl]
    · exact ih _ t hr

/-- Every known token starts Symmetric Voting at score 255. -/
theorem lookup_initScores {tokens : List Token} {t : Token} (ht : t ∈ tokens) :
    lookup (initScores tokens) t.position = some 255 :=
  lookup_initScores_aux tokens [] t ht

/-- Across a crash-free file list in which index `i` is always in context
and always votes the same direction `s`, the score at `tokens[i].position`
moves by `s` once per attention-bearing file. -/
theorem symmetric_accumulate (tokens : List Token) (i : ℕ) (t : Token)
    (hnodup : (tokens.map Token.position).Nodup)
    (ht : tokens[i]? = some t) (s : ℚ) :
    ∀ (files : List StepFile) (m : ScoreMap ℚ) (v : ℚ),
      lookup m t.position = some v →
      (∀ f ∈ files, ∀ sh agg, goodAgg f = some (sh, agg) →
        i < agg.length ∧
          (if agg.getD i 0 > localMean agg then (1 : ℚ) else -1) = s) →
      lookup (files.foldl (symmetricFileUpdate tokens) m) t.position =
        some (v + s * (files.countP hasAttention : ℚ)) := by
  intro files
  induction files with
  | nil => intro m v hv _; simpa using hv
  | cons f rest ih =>
    intro m v hv hstep
    have hrest := fun g hg => hstep g (List.mem_cons_of_mem f hg)
    simp only [List.foldl_cons, List.countP_cons]
    rcases hga : goodAgg f with _ | ⟨sh, agg⟩
    · have hupd : symmetricFileUpdate tokens m f = m := by
        unfold symmetricFileUpdate; rw [hga]
      have hcnt : hasAttention f = false := by
        unfold hasAttention; rw [hga]; rfl
      rw [hupd, hcnt]
      simpa using ih m v hv hrest
    · obtain ⟨hlen, hdir⟩ := hstep f (List.mem_cons_self f rest) sh agg hga
      have hupd : symmetricFileUpdate tokens m f =
          stepFold (symmetricRule tokens (localMean agg)) m 0 agg := by
        unfold symmetricFileUpdate; rw [hga]
      have hcnt : hasAttention f = true := by
        unfold hasAttention; rw [hga]; rfl
      have hrule : symmetricRule tokens (localMean agg) (0 + i) (agg.getD i 0)
          = some (t.position, s) := by
        unfold symmetricRule
        rw [show (0 : ℕ) + i = i by omega, ht, hdir]
      have htouch : ∀ j a q δ,
          symmetricRule tokens (localMean agg) j a = some (q, δ) →
          q = t.position → j = 0 + i := by
        intro j a q δ hj hq
        obtain ⟨u, hju, hqu⟩ := symmetricRule_elim hj
        have := position_index_unique hnodup ht hju (hqu ▸ hq)
        omega
      have hstepv : lookup (stepFold (symmetricRule tokens (localMean agg)) m 0 agg)
          t.position = some (v + s) :=
        lookup_stepFold_single _ t.position agg 0 i m v s hv hlen hrule htouch
      rw [hupd, hcnt]
      rw [ih _ (v + s) hstepv hrest]
      simp only [if_true]
      congr 1
      push_cast
      ring

/-- Two step-file lists matched record by record drive any strategy built on
`_load_token_data` through identical states. -/
theorem runSteps_format_congr {σ : Type}
    (process : σ → Shape → List ℚ → Except String σ)
    {l₁ l₂ : List StepFile} (h : List.Forall₂ FormatMatch l₁ l₂) :
    ∀ st : σ, runSteps loadedAttention process st l₁ =
      runSteps loadedAttention process st l₂ := by
  induction h with
  | nil => intro st; rfl
  | cons hfg _ ih =>
    intro st
    simp only [runSteps]
    rw [loadedAttention_formatMatch hfg]
    rcases hload : loadedAttention _ with e | o
    · exact ih st
    · rcases o with _ | ⟨sh, d⟩
      · exact ih st
      · dsimp only
        rcases hp : process st sh d with e | st2
        · rfl
        · exact ih st2

/-! ## Claim C8: Rolling Mean Voting is order-invariant -/

/-- Claim C8: The final vote totals produced by Rolling Mean Voting are
invariant under any permutation of the order in which the step records are
processed: for every capture and every permutation of its step sequence,
each position's final score (the looked-up value of the returned dict,
including whether the position is a key at all) is unchanged; runs that
abort on a bad record abort identically in any order. -/
theorem voting_perm_invariant (tokens : List Token) (minDistance : ℤ)
    {files files2 : List StepFile} (hperm : files.Perm files2) (p : ℕ) :
    Except.map (fun m => lookup m p)
        (votingComputeScores tokens minDistance files) =
      Except.map (fun m => lookup m p)
        (votingComputeScores tokens minDistance files2) := by
  by_cases hbad : ∃ f ∈ files, stepCrashes f = true
  · have hbad2 : ∃ f ∈ files2, stepCrashes f = true := by
      obtain ⟨f, hf, hc⟩ := hbad
      exact ⟨f, hperm.mem_iff.mp hf, hc⟩
    rw [votingComputeScores_error _ _ _ hbad,
      votingComputeScores_error _ _ _ hbad2]
  · push_neg at hbad
    have hok : ∀ f ∈ files, stepCrashes f = false := by
      intro f hf
      cases hc : stepCrashes f
      · rfl
      · exact absurd hc (hbad f hf)
    have hok2 : ∀ f ∈ files2, stepCrashes f = false := fun f hf =>
      hok f (hperm.mem_iff.mpr hf)
    rw [votingComputeScores_eq_foldl _ _ _ hok,
      votingComputeScores_eq_foldl _ _ _ hok2]
    simp only [Except.map]
    rw [lookup_votingFoldl, lookup_votingFoldl]
    rw [List.Perm.sum_eq (hperm.map (fileVotes tokens minDistance p))]

/-- Witness for C8 at a concrete two-step capture processed in both orders. -/
theorem voting_perm_invariant_witness :
    Except.map (fun m => lookup m 1)
        (votingComputeScores [⟨0, "a", 0, 0, "user"⟩, ⟨1, "b", 0, 0, "user"⟩] 0
          [.legacy (some (⟨1, 1, 2⟩, [1/4, 3/4])),
           .legacy (some (⟨1, 1, 2⟩, [3/5, 2/5]))]) =
      Except.map (fun m => lookup m 1)
        (votingComputeScores [⟨0, "a", 0, 0, "user"⟩, ⟨1, "b", 0, 0, "user"⟩] 0
          [.legacy (some (⟨1, 1, 2⟩, [3/5, 2/5])),
           .legacy (some (⟨1, 1, 2⟩, [1/4, 3/4]))]) :=
  voting_perm_invariant [⟨0, "a", 0, 0, "user"⟩, ⟨1, "b", 0, 0, "user"⟩] 0
    (List.Perm.swap (.legacy (some (⟨1, 1, 2⟩, [3/5, 2/5])))
      (.legacy (some (⟨1, 1, 2⟩, [1/4, 3/4]))) []) 1

/-! ## Claim C6: Symmetric Voting extremes -/

/-- Claim C6: In Symmetric Voting, over a capture whose `K` attention-bearing
steps all reshape cleanly, a token position (at token-list index `i`, all
positions distinct) that lies within the context of every one of the `K`
steps and is strictly above the step's local mean on every one of them
finishes with score exactly `255 + K`; a token that lies within every
context but is never above the local mean finishes with exactly `255 - K`. -/
theorem symmetric_extreme_scores (tokens : List Token) (files : List StepFile)
    (i : ℕ) (t : Token)
    (hnodup : (tokens.map Token.position).Nodup)
    (ht : tokens[i]? = some t)
    (hnb : ∀ f ∈ files, stepCrashes f = false) :
    ((∀ f ∈ files, ∀ sh agg, goodAgg f = some (sh, agg) →
        i < agg.length ∧ localMean agg < agg.getD i 0) →
      Except.map (fun m => lookup m t.position)
          (symmetricComputeScores tokens files) =
        .ok (some (255 + (files.countP hasAttention : ℚ)))) ∧
    ((∀ f ∈ files, ∀ sh agg, goodAgg f = some (sh, agg) →
        i < agg.length ∧ agg.getD i 0 ≤ localMean agg) →
      Except.map (fun m => lookup m t.position)
          (symmetricComputeScores tokens files) =
        .ok (some (255 - (files.countP hasAttention : ℚ)))) := by
  have hmem : t ∈ tokens := List.getElem?_mem ht
  have hinit : lookup (initScores tokens) t.position = some 255 :=
    lookup_initScores hmem
  constructor
  · intro habove
    rw [symmetricComputeScores_eq_foldl tokens files hnb]
    have hacc := symmetric_accumulate tokens i t hnodup ht 1 files
      (initScores tokens) 255 hinit
      (fun f hf sh agg hga => by
        obtain ⟨hlen, hgt⟩ := habove f hf sh agg hga
        exact ⟨hlen, if_pos hgt⟩)
    simp only [Except.map]
    rw [hacc]
    norm_num
  · intro hbelow
    rw [symmetricComputeScores_eq_foldl tokens files hnb]
    have hacc := symmetric_accumulate tokens i t hnodup ht (-1) files
      (initScores tokens) 255 hinit
      (fun f hf sh agg hga => by
        obtain ⟨hlen, hle⟩ := hbelow f hf sh agg hga
        exact ⟨hlen, if_neg (by exact fun hc => absurd hle (not_le.mpr hc))⟩)
    simp only [Except.map]
    rw [hacc]
    congr 2
    ring

/-- Witness for C6: position 0 is above the local mean on both steps and
finishes at `255 + 2`; position 1 is below on both steps and finishes at
`255 - 2`. -/
theorem symmetric_extreme_scores_witness :
    Except.map (fun m => lookup m 0) (symmetricComputeScores c6Tokens c6Files)
        = .ok (some 257) ∧
    Except.map (fun m => lookup m 1) (symmetricComputeScores c6Tokens c6Files)
        = .ok (some 253) := by
  have hnodup : (c6Tokens.map Token.position).Nodup := by decide
  have hnb : ∀ f ∈ c6Files, stepCrashes f = false := by decide
  have hcount : c6Files.countP hasAttention = 2 := by decide
  have hg1 : goodAgg (.legacy (some (⟨1, 1, 3⟩, [3/5, 1/4, 3/20])))
      = some (⟨1, 1, 3⟩, [3/5, 1/4, 3/20]) := by
    rw [@goodAgg_of_load (.legacy (some (⟨1, 1, 3⟩, [3/5, 1/4, 3/20])))
      ⟨1, 1, 3⟩ [3/5, 1/4, 3/20] rfl (by decide)]
    norm_num [aggValues, List.range_succ]
  have hg2 : goodAgg (.legacy (some (⟨1, 1, 3⟩, [1/2, 1/10, 2/5])))
      = some (⟨1, 1, 3⟩, [1/2, 1/10, 2/5]) := by
    rw [@goodAgg_of_load (.legacy (some (⟨1, 1, 3⟩, [1/2, 1/10, 2/5])))
      ⟨1, 1, 3⟩ [1/2, 1/10, 2/5] rfl (by decide)]
    norm_num [aggValues, List.range_succ]
  constructor
  · refine (symmetric_extreme_scores c6Tokens c6Files 0 ⟨0, "a", 0, 0, "user"⟩
      hnodup rfl hnb).1 ?_ |>.trans ?_
    · intro f hf sh agg hga
      simp only [c6Files, List.mem_cons, List.not_mem_nil, or_false] at hf
      rcases hf with rfl | rfl
      · rw [hg1] at hga
        simp only [Option.some.injEq, Prod.mk.injEq] at hga
        obtain ⟨-, rfl⟩ := hga
        norm_num [localMean]
      · rw [hg2] at hga
        simp only [Option.some.injEq, Prod.mk.injEq] at hga
        obtain ⟨-, rfl⟩ := hga
        norm_num [localMean]
    · rw [hcount]
      norm_num
  · refine (symmetric_extreme_scores c6Tokens c6Files 1 ⟨1, "b", 0, 0, "user"⟩
      hnodup rfl hnb).2 ?_ |>.trans ?_
    · intro f hf sh agg hga
      simp only [c6Files, List.mem_cons, List.not_mem_nil, or_false] at hf
      rcases hf with rfl | rfl
      · rw [hg1] at hga
        simp only [Option.some.injEq, Prod.mk.injEq] at hga
        obtain ⟨-, rfl⟩ := hga
        norm_num [localMean]
      · rw [hg2] at hga
        simp only [Option.some.injEq, Prod.mk.injEq] at hga
        obtain ⟨-, rfl⟩ := hga
        norm_num [localMean]
    · rw [hcount]
      norm_num

/-! ## Claim C1: on-disk format equivalence -/

/-- Claim C1, amended: Legacy-format and split-format captures holding
numerically identical attention values produce identical ScoreMaps for the
strategies that read steps through the format-aware
`_load_token_data` loader: Rolling Mean Voting, Symmetric Voting,
Cumulative, and Magnitude Voting v3.  (The equality is exact, hence within
any float32 rounding tolerance.)  Magnitude Voting v1 and v2 are excluded:
they parse the legacy embedded-attention JSON themselves, see no attention
in split-format records, and are refuted in the counterexample. -/
theorem format_equivalence (tokens : List Token) (minDistance : ℤ)
    (p : CumulativeParams) {l1 l2 : List StepFile}
    (h : List.Forall₂ FormatMatch l1 l2) :
    votingComputeScores tokens minDistance l1
        = votingComputeScores tokens minDistance l2 ∧
    symmetricComputeScores tokens l1 = symmetricComputeScores tokens l2 ∧
    cumulativeComputeScores tokens p l1 = cumulativeComputeScores tokens p l2 ∧
    magnitudeV3ComputeScores tokens l1 = magnitudeV3ComputeScores tokens l2 := by
  refine ⟨?_, ?_, ?_, ?_⟩
  · exact runSteps_format_congr _ h []
  · exact runSteps_format_congr _ h (initScores tokens)
  · exact runSteps_format_congr _ h []
  · unfold magnitudeV3ComputeScores
    cases tokens with
    | nil => rfl
    | cons t0 trest =>
      dsimp only
      rw [runSteps_format_congr (fun arr => magnitudeV3Step
        (maxPosition (t0 :: trest) + 1) arr) h]
      have hemp : l1.isEmpty = l2.isEmpty := by
        cases h with
        | nil => rfl
        | cons _ _ => rfl
      rw [hemp]

/-- Witness for C1 at the concrete capture pair. -/
theorem format_equivalence_witness :
    votingComputeScores c1Tokens 50 c1Legacy
        = votingComputeScores c1Tokens 50 c1Split ∧
    symmetricComputeScores c1Tokens c1Legacy
        = symmetricComputeScores c1Tokens c1Split ∧
    cumulativeComputeScores c1Tokens ⟨1/1000, .additive, .logarithmic, 20, 10, id, id⟩ c1Legacy
        = cumulativeComputeScores c1Tokens ⟨1/1000, .additive, .logarithmic, 20, 10, id, id⟩ c1Split ∧
    magnitudeV3ComputeScores c1Tokens c1Legacy
        = magnitudeV3ComputeScores c1Tokens c1Split :=
  format_equivalence c1Tokens 50 ⟨1/1000, .additive, .logarithmic, 20, 10, id, id⟩
    (List.Forall₂.cons (FormatMatch.attn ⟨1, 1, 2⟩ [3/4, 1/4] (by decide))
      List.Forall₂.nil)

/-- Counterexample to claim C1 as stated: The claim as stated fails for baseline Magnitude
Voting (and likewise v2): on the legacy capture it scores positions 0 and 1
as 256 and 254, while on the numerically identical split capture it sees no
attention at all and returns the untouched 255 baseline — integer
differences of 1, far beyond float32 rounding tolerance. -/
theorem format_equivalence_counterexample :
    magnitudeComputeScores c1Tokens c1Legacy = .ok [(0, 256), (1, 254)] ∧
    magnitudeComputeScores c1Tokens c1Split = .ok [(0, 255), (1, 255)] ∧
    ([(0, 256), (1, 254)] : ScoreMap ℚ) ≠ [(0, 255), (1, 255)] := by
  refine ⟨?_, ?_, ?_⟩
  · norm_num [magnitudeComputeScores, runSteps, legacyAttention, c1Tokens,
      c1Legacy, magnitudeStep, aggregateAttention, aggValues, localMean,
      stepFold, magnitudeRule, initScores, store, lookup, lookupD, pyInt,
      Except.map, List.range_succ, bind, Except.bind]
  · norm_num [magnitudeComputeScores, runSteps, legacyAttention, c1Tokens,
      c1Split, initScores, store, bind, Except.bind]
  · norm_num

/-- A step whose per-step update raises aborts the whole run at once. -/
theorem runSteps_error_head {σ : Type}
    (read : StepFile → Except String (Option (Shape × List ℚ)))
    (process : σ → Shape → List ℚ → Except String σ)
    {f : StepFile} {rest : List StepFile} {st : σ} {sh : Shape} {d : List ℚ}
    {e : String} (hread : read f = .ok (some (sh, d)))
    (hproc : process st sh d = .error e) :
    runSteps read process st (f :: rest) = .error e := by
  simp only [runSteps]
  rw [hread]
  dsimp only
  rw [hproc]

/-! ## Claim C2: the zero-valid-steps baseline -/

theorem lookup_initScoresV2_preserve (l : List Token) :
    ∀ (m : ScoreMap ℚ) (p : ℕ), lookup m p = some 255 →
      lookup (l.foldl
        (fun m t => if 0 < t.position then store m t.position 255 else m) m) p
        = some 255 := by
  induction l with
  | nil => intro m p h; exact h
  | cons u rest ih =>
    intro m p h
    simp only [List.foldl_cons]
    apply ih
    by_cases hu : 0 < u.position
    · rw [if_pos hu]
      by_cases hq : p = u.position
      · rw [lookup_store, if_pos hq]
      · rw [lookup_store, if_neg hq]
        exact h
    · rw [if_neg hu]
      exact h

theorem lookup_initScoresV2_aux (l : List Token) :
    ∀ (m : ScoreMap ℚ) (t : Token), t ∈ l → 0 < t.position →
      lookup (l.foldl
        (fun m t => if 0 < t.position then store m t.position 255 else m) m)
        t.position = some 255 := by
  induction l with
  | nil => intro m t h; exact absurd h (List.not_mem_nil t)
  | cons u rest ih =>
    intro m t h hpos
    simp only [List.foldl_cons]
    rcases List.mem_cons.mp h with rfl | hr
    · apply lookup_initScoresV2_preserve
      rw [if_pos hpos, lookup_store, if_pos rfl]
    · exact ih _ t hr hpos

/-- Every known non-BOS token starts Magnitude Voting v2 at score 255. -/
theorem lookup_initScoresV2 {tokens : List Token} {t : Token}
    (ht : t ∈ tokens) (hpos : 0 < t.position) :
    lookup (initScoresV2 tokens) t.position = some 255 :=
  lookup_initScoresV2_aux tokens [] t ht hpos

theorem lookup_v3Convert_preserve (arr : List ℚ) (l : List Token) :
    ∀ (m : ScoreMap ℚ) (p : ℕ), lookup m p = some (arr.getD p 0) →
      lookup (l.foldl
        (fun m t => if 0 < t.position
          then store m t.position (arr.getD t.position 0) else m) m) p
        = some (arr.getD p 0) := by
  induction l with
  | nil => intro m p h; exact h
  | cons u rest ih =>
    intro m p h
    simp only [List.foldl_cons]
    apply ih
    by_cases hu : 0 < u.position
    · rw [if_pos hu]
      by_cases hq : p = u.position
      · rw [lookup_store, if_pos hq, hq]
      · rw [lookup_store, if_neg hq]
        exact h
    · rw [if_neg hu]
      exact h

/-- The final dict of Magnitude Voting v3 maps each non-BOS token position
to the corresponding score-array cell. -/
theorem lookup_v3Convert (arr : List ℚ) (l : List Token) :
    ∀ (m : ScoreMap ℚ) (t : Token), t ∈ l → 0 < t.position →
      lookup (l.foldl
        (fun m t => if 0 < t.position
          then store m t.position (arr.getD t.position 0) else m) m)
        t.position = some (arr.getD t.position 0) := by
  induction l with
  | nil => intro m t h; exact absurd h (List.not_mem_nil t)
  | cons u rest ih =>
    intro m t h hpos
    simp only [List.foldl_cons]
    rcases List.mem_cons.mp h with rfl | hr
    · apply lookup_v3Convert_preserve
      rw [if_pos hpos, lookup_store, if_pos rfl]
    · exact ih _ t hr hpos

theorem foldl_max_le_init (l : List Token) :
    ∀ a : ℕ, a ≤ l.foldl (fun acc u => max acc u.position) a := by
  induction l with
  | nil => intro a; exact le_refl a
  | cons u rest ih =>
    intro a
    exact le_trans (le_max_left a u.position) (ih (max a u.position))

theorem foldl_max_le_mem (l : List Token) :
    ∀ (a : ℕ) (t : Token), t ∈ l →
      t.position ≤ l.foldl (fun acc u => max acc u.position) a := by
  induction l with
  | nil => intro a t h; exact absurd h (List.not_mem_nil t)
  | cons u rest ih =>
    intro a t h
    simp only [List.foldl_cons]
    rcases List.mem_cons.mp h with rfl | hr
    · exact le_trans (le_max_right a t.position) (foldl_max_le_init rest _)
    · exact ih _ t hr

/-- The `max()` over the token positions bounds every token's position. -/
theorem le_maxPosition {tokens : List Token} {t : Token} (ht : t ∈ tokens) :
    t.position ≤ maxPosition tokens := by
  cases tokens with
  | nil => exact absurd ht (List.not_mem_nil t)
  | cons t0 trest =>
    unfold maxPosition
    rcases List.mem_cons.mp ht with rfl | hr
    · exact foldl_max_le_init trest _
    · exact foldl_max_le_mem trest _ t hr

/-- A cell of the v3 initial score array away from the BOS slot reads 255. -/
theorem v3Array_getD {n pos : ℕ} (hpos : 0 < pos) (hlt : pos < n) :
    ((List.replicate n (255 : ℚ)).set 0 0).getD pos 0 = 255 := by
  rw [List.getD_eq_getElem?_getD, List.getElem?_set]
  rw [if_neg (by omega), List.getElem?_replicate, if_pos hlt]
  rfl

/-- Claim C2, amended: For a capture directory containing at least one step
file but zero valid generation steps (no record with an attention payload,
for either reader), the strategies return their documented baselines in
this sense: Symmetric Voting and baseline Magnitude Voting map every known
token position to 255, and Magnitude Voting v2/v3 map every known non-BOS
position to 255; but Rolling Mean Voting and Cumulative return the *empty*
ScoreMap — no position appears as a key at all (the per-position default of
their `defaultdict` accumulators being 0), rather than a map assigning 0 to
every known position as the claim states. -/
theorem zero_valid_steps_baseline (tokens : List Token) (minDistance : ℤ)
    (p : CumulativeParams) (files : List StepFile)
    (hinert : ∀ f ∈ files, inertStep f = true)
    (hfne : files ≠ []) (htne : tokens ≠ []) :
    votingComputeScores tokens minDistance files = .ok [] ∧
    cumulativeComputeScores tokens p files = .ok [] ∧
    (∀ t ∈ tokens, Except.map (fun m => lookup m t.position)
      (symmetricComputeScores tokens files) = .ok (some 255)) ∧
    (∀ t ∈ tokens, Except.map (fun m => lookup m t.position)
      (magnitudeComputeScores tokens files) = .ok (some 255)) ∧
    (∀ t ∈ tokens, 0 < t.position → Except.map (fun m => lookup m t.position)
      (magnitudeV2ComputeScores tokens files) = .ok (some 255)) ∧
    (∀ t ∈ tokens, 0 < t.position → Except.map (fun m => lookup m t.position)
      (magnitudeV3ComputeScores tokens files) = .ok (some 255)) := by
  have hload := fun f hf => inertStep_loadedAttention (hinert f hf)
  have hleg := fun f hf => inertStep_legacyAttention (hinert f hf)
  have hempty : files.isEmpty = false := by
    cases files with
    | nil => exact absurd rfl hfne
    | cons f frest => rfl
  refine ⟨?_, ?_, ?_, ?_, ?_, ?_⟩
  · exact runSteps_skip _ _ files hload []
  · exact runSteps_skip _ _ files hload []
  · intro t ht
    unfold symmetricComputeScores
    rw [runSteps_skip _ _ files hload (initScores tokens)]
    simp only [Except.map]
    rw [lookup_initScores ht]
  · intro t ht
    unfold magnitudeComputeScores
    rw [runSteps_skip _ _ files hleg (initScores tokens)]
    simp only [bind, Except.bind, hempty, Bool.false_eq_true, if_false,
      Except.map]
    rw [lookup_initScores ht]
  · intro t ht hpos
    unfold magnitudeV2ComputeScores
    rw [runSteps_skip _ _ files hleg (initScoresV2 tokens)]
    simp only [bind, Except.bind, hempty, Bool.false_eq_true, if_false,
      Except.map]
    rw [lookup_initScoresV2 ht hpos]
  · intro t ht hpos
    cases tokens with
    | nil => exact absurd rfl htne
    | cons t0 trest =>
      unfold magnitudeV3ComputeScores
      dsimp only
      rw [runSteps_skip _ _ files hload _]
      simp only [bind, Except.bind, hempty, Bool.false_eq_true, if_false,
        Except.map]
      rw [lookup_v3Convert _ (t0 :: trest) [] t ht hpos,
        v3Array_getD hpos (by
          have := le_maxPosition ht
          omega)]

/-- Witness for C2: a two-token capture whose single step record carries no
attention. -/
theorem zero_valid_steps_baseline_witness :
    votingComputeScores [⟨0, "a", 0, 0, "user"⟩, ⟨1, "b", 0, 0, "user"⟩] 50
        [.legacy none] = .ok [] ∧
    cumulativeComputeScores [⟨0, "a", 0, 0, "user"⟩, ⟨1, "b", 0, 0, "user"⟩]
        ⟨1/1000, .additive, .logarithmic, 20, 10, id, id⟩ [.legacy none] = .ok [] ∧
    Except.map (fun m => lookup m 1)
        (symmetricComputeScores [⟨0, "a", 0, 0, "user"⟩, ⟨1, "b", 0, 0, "user"⟩]
          [.legacy none]) = .ok (some 255) ∧
    Except.map (fun m => lookup m 1)
        (magnitudeComputeScores [⟨0, "a", 0, 0, "user"⟩, ⟨1, "b", 0, 0, "user"⟩]
          [.legacy none]) = .ok (some 255) ∧
    Except.map (fun m => lookup m 1)
        (magnitudeV2ComputeScores [⟨0, "a", 0, 0, "user"⟩, ⟨1, "b", 0, 0, "user"⟩]
          [.legacy none]) = .ok (some 255) ∧
    Except.map (fun m => lookup m 1)
        (magnitudeV3ComputeScores [⟨0, "a", 0, 0, "user"⟩, ⟨1, "b", 0, 0, "user"⟩]
          [.legacy none]) = .ok (some 255) := by
  have h := zero_valid_steps_baseline
    [⟨0, "a", 0, 0, "user"⟩, ⟨1, "b", 0, 0, "user"⟩] 50
    ⟨1/1000, .additive, .logarithmic, 20, 10, id, id⟩ [.legacy none]
    (by decide) (by simp) (by simp)
  have hmem : (⟨1, "b", 0, 0, "user"⟩ : Token)
      ∈ [(⟨0, "a", 0, 0, "user"⟩ : Token), ⟨1, "b", 0, 0, "user"⟩] := by
    simp
  exact ⟨h.1, h.2.1, h.2.2.1 _ hmem, h.2.2.2.1 _ hmem,
    h.2.2.2.2.1 _ hmem (by decide), h.2.2.2.2.2 _ hmem (by decide)⟩

/-- Counterexample to claim C2 as stated: On a capture with token position 1 and one
attention-free step record, Rolling Mean Voting returns a ScoreMap with *no*
entry for the known position — not the value 0 for that position that the
claim requires. -/
theorem zero_valid_steps_counterexample :
    Except.map (fun m => lookup m 1)
        (votingComputeScores [⟨1, "b", 0, 0, "user"⟩] 50 [.legacy none])
      = .ok none ∧
    (Except.ok none : Except String (Option ℚ)) ≠ .ok (some 0) := by
  constructor
  · rfl
  · simp

/-! ## Claim C3: split-format length mismatch -/

/-- Claim C3, amended: A split-format record whose binary payload length
differs from `layers*heads*context_length` is *not* skipped: the payload is
loaded with no validation, and the strategy's aggregation step raises the
numpy reshape `ValueError`, which no strategy catches — the run aborts
(shown here for Rolling Mean Voting, Symmetric Voting, Cumulative, and
Magnitude Voting v3, the strategies that read split captures).  Only a
record whose JSON fails to parse is skipped, with the run continuing on the
remaining records (last conjunct). -/
theorem split_length_mismatch_crashes (tokens : List Token) (t0 : Token)
    (trest : List Token) (minDistance : ℤ) (p : CumulativeParams)
    (sh : Shape) (bin : List ℚ) (rest : List StepFile)
    (hlen : ¬ bin.length = sh.nLayers * sh.nHeads * sh.contextLen) :
    votingComputeScores tokens minDistance
        (.splitMeta (some sh) (some bin) :: rest)
      = .error "ValueError: cannot reshape" ∧
    symmetricComputeScores tokens (.splitMeta (some sh) (some bin) :: rest)
      = .error "ValueError: cannot reshape" ∧
    cumulativeComputeScores tokens p (.splitMeta (some sh) (some bin) :: rest)
      = .error "ValueError: cannot reshape" ∧
    magnitudeV3ComputeScores (t0 :: trest)
        (.splitMeta (some sh) (some bin) :: rest)
      = .error "ValueError: cannot reshape" ∧
    votingComputeScores tokens minDistance (.malformed :: rest)
      = votingComputeScores tokens minDistance rest := by
  have hread : loadedAttention (.splitMeta (some sh) (some bin))
      = .ok (some (sh, bin)) := rfl
  refine ⟨?_, ?_, ?_, ?_, rfl⟩
  · exact runSteps_error_head _ _ hread
      (by unfold votingStep; rw [aggregateAttention_error hlen]; rfl)
  · exact runSteps_error_head _ _ hread
      (by unfold symmetricStep; rw [aggregateAttention_error hlen]; rfl)
  · exact runSteps_error_head _ _ hread
      (by unfold cumulativeStep; rw [aggregateAttention_error hlen]; rfl)
  · unfold magnitudeV3ComputeScores
    dsimp only
    rw [runSteps_error_head _ _ hread
      (by unfold magnitudeV3Step; rw [aggregateAttention_error hlen]; rfl)]
    rfl

/-- Witness for C3: one-float payload against a `1×1×2` shape. -/
theorem split_length_mismatch_crashes_witness :
    votingComputeScores [⟨1, "b", 0, 0, "user"⟩] 50
        [.splitMeta (some ⟨1, 1, 2⟩) (some [1/2])]
      = .error "ValueError: cannot reshape" ∧
    symmetricComputeScores [⟨1, "b", 0, 0, "user"⟩]
        [.splitMeta (some ⟨1, 1, 2⟩) (some [1/2])]
      = .error "ValueError: cannot reshape" ∧
    cumulativeComputeScores [⟨1, "b", 0, 0, "user"⟩]
        ⟨1/1000, .additive, .logarithmic, 20, 10, id, id⟩
        [.splitMeta (some ⟨1, 1, 2⟩) (some [1/2])]
      = .error "ValueError: cannot reshape" ∧
    magnitudeV3ComputeScores [⟨1, "b", 0, 0, "user"⟩]
        [.splitMeta (some ⟨1, 1, 2⟩) (some [1/2])]
      = .error "ValueError: cannot reshape" ∧
    votingComputeScores [⟨1, "b", 0, 0, "user"⟩] 50 [.malformed]
      = votingComputeScores [⟨1, "b", 0, 0, "user"⟩] 50 [] :=
  split_length_mismatch_crashes [⟨1, "b", 0, 0, "user"⟩] ⟨1, "b", 0, 0, "user"⟩
    [] 50 ⟨1/1000, .additive, .logarithmic, 20, 10, id, id⟩
    ⟨1, 1, 2⟩ [1/2] [] (by decide)

/-- Counterexample to claim C3 as stated: On a concrete capture whose only record is a
split-format step with a one-float payload against a `1×1×2` shape,
Rolling Mean Voting aborts with the reshape error instead of skipping the
record and returning the result of processing the remaining (zero)
records. -/
theorem split_length_mismatch_counterexample :
    votingComputeScores [⟨1, "b", 0, 0, "user"⟩] 50
        [.splitMeta (some ⟨1, 1, 2⟩) (some [1/2])]
      = .error "ValueError: cannot reshape" ∧
    votingComputeScores [⟨1, "b", 0, 0, "user"⟩] 50 [] = .ok [] ∧
    (Except.error "ValueError: cannot reshape"
      : Except String (ScoreMap ℚ)) ≠ .ok [] := by
  refine ⟨rfl, rfl, by simp⟩

/-! ## Claim C4: the cumulative minimum-distance gate -/

/-- Claim C4, amended: In the Cumulative strategy, for every configured
distance-weighting mode *other than `'none'`*, a position whose distance
from the generation head is strictly below the configured minimum distance
contributes exactly zero at that step: `_apply_distance_weight` returns 0
before any multiplier is computed.  Mode `'none'` returns the raw attention
unconditionally, bypassing the minimum-distance filter (see the
counterexample), so the claim's "every configured mode" fails. -/
theorem distance_gate (p : CumulativeParams)
    (hmode : p.distanceMode ≠ .noWeight) (raw : ℚ) (distance : ℤ)
    (hdist : distance < p.minDistance) :
    applyDistanceWeight p raw distance = 0 := by
  unfold applyDistanceWeight
  rcases hm : p.distanceMode with _ | _ | _ | _ | _
  · exact absurd hm hmode
  all_goals dsimp only
  all_goals rw [if_pos hdist]

/-- Witness for C4 in `'threshold'` mode at distance 5 < 20. -/
theorem distance_gate_witness :
    applyDistanceWeight ⟨1/1000, .additive, .threshold, 20, 10, id, id⟩
      (1/2) 5 = 0 :=
  distance_gate ⟨1/1000, .additive, .threshold, 20, 10, id, id⟩
    (by decide) (1/2) 5 (by decide)

/-- Counterexample to claim C4 as stated: In mode `'none'` the raw attention is returned
regardless of distance, and a position at distance 1 < `min_distance` = 20
accumulates a nonzero score contribution at that step. -/
theorem distance_gate_counterexample :
    applyDistanceWeight ⟨1/1000, .additive, .noWeight, 20, 10, id, id⟩
        (1/2) 5 = 1/2 ∧
    Except.map (fun m => lookup m 5)
        (cumulativeComputeScores [⟨5, "x", 0, 0, "user"⟩]
          ⟨0, .noDecay, .noWeight, 20, 10, id, id⟩
          [.legacy (some (⟨1, 1, 1⟩, [1/2]))]) = .ok (some (1/2)) ∧
    some ((1 : ℚ)/2) ≠ some 0 := by
  refine ⟨rfl, ?_, by norm_num⟩
  norm_num [cumulativeComputeScores, runSteps, loadedAttention, loadTokenData,
    Except.map, cumulativeStep, aggregateAttention, aggValues, localMean,
    cumulativeFold, applyDistanceWeight, calculateDecay, store, lookup,
    lookupD, List.range_succ]

/-! ## Claim C5: BOS exclusion in the optimized magnitude variants -/

/-- Runs built on `runSteps` preserve any invariant that each per-step
update preserves. -/
theorem runSteps_preserve {σ : Type}
    (read : StepFile → Except String (Option (Shape × List ℚ)))
    (process : σ → Shape → List ℚ → Except String σ) (P : σ → Prop)
    (hstep : ∀ st sh d st2, P st → process st sh d = .ok st2 → P st2) :
    ∀ (files : List StepFile) (st st2 : σ), P st →
      runSteps read process st files = .ok st2 → P st2 := by
  intro files
  induction files with
  | nil =>
    intro st st2 hP h
    simp only [runSteps] at h
    cases h
    exact hP
  | cons f rest ih =>
    intro st st2 hP h
    simp only [runSteps] at h
    rcases hread : read f with e | o <;> rw [hread] at h
    · exact ih st st2 hP h
    · rcases o with _ | ⟨sh, d⟩
      · exact ih st st2 hP h
      · dsimp only at h
        rcases hp : process st sh d with e | stm <;> rw [hp] at h
        · exact absurd h (by simp)
        · exact ih stm st2 (hstep st sh d stm hP hp) h

theorem lookup0_v2Fold (nonBos : List ℚ) (threshold : ℚ) :
    ∀ (poss : List ℕ) (m : ScoreMap ℚ) (i : ℕ),
      (∀ q ∈ poss, 0 < q) → lookup m 0 = none →
      lookup (v2Fold nonBos threshold m i poss) 0 = none := by
  intro poss
  induction poss with
  | nil => intro m i _ h; exact h
  | cons pos rest ih =>
    intro m i hq h
    have hpos : 0 < pos := hq pos (List.mem_cons_self pos rest)
    simp only [v2Fold]
    apply ih _ _ (fun q hmem => hq q (List.mem_cons_of_mem pos hmem))
    rw [lookup_store, if_neg (by omega)]
    exact h

theorem nonBosPositions_pos (tokens : List Token) :
    ∀ q ∈ nonBosPositions tokens, 0 < q := by
  intro q hq
  unfold nonBosPositions at hq
  obtain ⟨t, ht, rfl⟩ := List.mem_map.mp hq
  exact of_decide_eq_true (List.mem_filter.mp ht).2

theorem magnitudeV2Step_preserve0 {tokens : List Token} {st : ScoreMap ℚ}
    {sh : Shape} {d : List ℚ} {st2 : ScoreMap ℚ}
    (hP : lookup st 0 = none)
    (h : magnitudeV2Step tokens st sh d = .ok st2) :
    lookup st2 0 = none := by
  unfold magnitudeV2Step at h
  rcases hagg : aggregateAttention d sh with e | agg <;>
    rw [hagg] at h <;> simp only [bind, Except.bind] at h
  · exact absurd h (by simp)
  · cases agg with
    | nil => exact absurd h (by simp)
    | cons bos aggRest =>
      dsimp only at h
      by_cases hne : (aggRest.take (tokens.length - 1)).isEmpty = true
      · rw [if_pos hne] at h
        exact absurd h (by simp)
      · rw [if_neg hne] at h
        cases h
        exact lookup0_v2Fold _ _ _ st 0
          (fun q hq => nonBosPositions_pos tokens q (List.take_subset _ _ hq))
          hP

theorem lookup0_initScoresV2_aux (l : List Token) :
    ∀ m : ScoreMap ℚ, lookup m 0 = none →
      lookup (l.foldl
        (fun m t => if 0 < t.position then store m t.position 255 else m) m)
        0 = none := by
  induction l with
  | nil => intro m h; exact h
  | cons u rest ih =>
    intro m h
    simp only [List.foldl_cons]
    apply ih
    by_cases hu : 0 < u.position
    · rw [if_pos hu, lookup_store, if_neg (by omega)]
      exact h
    · rw [if_neg hu]
      exact h

theorem lookup0_v3Convert (arr : List ℚ) (l : List Token) :
    ∀ m : ScoreMap ℚ, lookup m 0 = none →
      lookup (l.foldl
        (fun m t => if 0 < t.position
          then store m t.position (arr.getD t.position 0) else m) m)
        0 = none := by
  induction l with
  | nil => intro m h; exact h
  | cons u rest ih =>
    intro m h
    simp only [List.foldl_cons]
    apply ih
    by_cases hu : 0 < u.position
    · rw [if_pos hu, lookup_store, if_neg (by omega)]
      exact h
    · rw [if_neg hu]
      exact h

/-- Claim C5: In the optimized Magnitude-Weighted Voting variants (v2 and
v3), position 0 (BOS) never appears as a key of a successfully returned
ScoreMap, and the per-step comparison threshold both variants compute as
`threshold = (1.0 - bos_attention) / len(non_bos_attention)` equals
`(1 − attention[0]) / n` with `n` the number of non-BOS positions
considered at that step, so the BOS attention mass is excluded from the
mean and BOS receives no score updates. -/
theorem bos_excluded (tokens : List Token) (files : List StepFile) :
    (∀ m, magnitudeV2ComputeScores tokens files = .ok m → lookup m 0 = none) ∧
    (∀ m, magnitudeV3ComputeScores tokens files = .ok m → lookup m 0 = none) ∧
    (∀ (bos : ℚ) (n : ℕ), bosThreshold bos n = (1 - bos) / n) := by
  refine ⟨?_, ?_, fun bos n => rfl⟩
  · intro m h
    unfold magnitudeV2ComputeScores at h
    rcases hrun : runSteps legacyAttention (magnitudeV2Step tokens)
        (initScoresV2 tokens) files with e | st <;>
      rw [hrun] at h <;> simp only [bind, Except.bind] at h
    · exact absurd h (by simp)
    · by_cases hne : files.isEmpty
      · rw [if_pos hne] at h
        exact absurd h (by simp)
      · rw [if_neg hne] at h
        cases h
        exact runSteps_preserve legacyAttention (magnitudeV2Step tokens)
          (fun m2 => lookup m2 0 = none)
          (fun st sh d st2 hP hp => magnitudeV2Step_preserve0 hP hp)
          files (initScoresV2 tokens) m
          (lookup0_initScoresV2_aux tokens [] rfl) hrun
  · intro m h
    unfold magnitudeV3ComputeScores at h
    cases tokens with
    | nil => exact absurd h (by simp)
    | cons t0 trest =>
      dsimp only at h
      rcases hrun : runSteps loadedAttention
          (fun arr => magnitudeV3Step (maxPosition (t0 :: trest) + 1) arr)
          ((List.replicate (maxPosition (t0 :: trest) + 1) (255:ℚ)).set 0 0)
          files with e | arr <;> rw [hrun] at h <;>
        simp only [bind, Except.bind] at h
      · exact absurd h (by simp)
      · by_cases hne : files.isEmpty
        · rw [if_pos hne] at h
          exact absurd h (by simp)
        · rw [if_neg hne] at h
          cases h
          exact lookup0_v3Convert arr (t0 :: trest) [] rfl

/-- Witness for C5: concrete capture with one attention step; both variants
return maps whose only key is position 1. -/
theorem bos_excluded_witness :
    lookup [((1 : ℕ), (254 : ℚ))] 0 = none ∧
    bosThreshold (3/4) 1 = (1 - 3/4) / 1 := by
  have h := bos_excluded c1Tokens c1Legacy
  refine ⟨?_, h.2.2 (3/4) 1⟩
  refine h.1 [((1 : ℕ), (254 : ℚ))] ?_
  norm_num [magnitudeV2ComputeScores, runSteps, legacyAttention, c1Tokens,
    c1Legacy, magnitudeV2Step, aggregateAttention, aggValues, localMean,
    v2Fold, initScoresV2, nonBosPositions, bosThreshold, magDelta, pyInt,
    store, lookup, lookupD, Except.map, List.range_succ, bind, Except.bind,
    List.filter]

/-! ## Claim C7: the near-zero-threshold division -/

/-- Claim C7, amended: The near-zero-threshold division of the optimized
magnitude variants is *not* guarded: when a step's aggregated BOS attention
equals 1, the computed threshold `(1 - bos) / n` is exactly 0, every
position with positive attention still satisfies the strict above-threshold
comparison (so the step is not treated as having no positions above
threshold), and the ratio `attention / threshold` is computed with a zero
divisor.  (In IEEE float arithmetic that quotient is `inf` and its `int`
cast is undefined; in this exact rational model `x / 0 = 0`, so the
increment evaluates to 0 — in neither semantics does the position take the
below-threshold `-1` branch the claimed guard would produce.) -/
theorem bos_threshold_unguarded (n : ℕ) (a : ℚ) (ha : 0 < a) :
    bosThreshold 1 n = 0 ∧ bosThreshold 1 n < a ∧
    magDelta (bosThreshold 1 n) a ≠ -1 := by
  have h0 : bosThreshold 1 n = 0 := by
    unfold bosThreshold
    norm_num
  refine ⟨h0, by rw [h0]; exact ha, ?_⟩
  rw [h0]
  unfold magDelta
  rw [if_pos (by exact ha)]
  norm_num [pyInt]

/-- Witness for C7 at `n = 1`, `a = 1/2`. -/
theorem bos_threshold_unguarded_witness :
    bosThreshold 1 1 = 0 ∧ bosThreshold 1 1 < 1/2 ∧
    magDelta (bosThreshold 1 1) (1/2) ≠ -1 :=
  bos_threshold_unguarded 1 (1/2) (by norm_num)

/-- Counterexample to claim C7 as stated: With aggregated BOS attention exactly 1 and a
non-BOS position holding attention 1/2, the threshold is 0, the position is
classified above threshold (`1/2 > 0`), and the update applied is the
ratio-branch value — not the `-1` below-threshold branch that "treat as no
positions above threshold" would give. -/
theorem bos_threshold_counterexample :
    bosThreshold 1 1 = 0 ∧ (1 : ℚ)/2 > bosThreshold 1 1 ∧
    magDelta (bosThreshold 1 1) (1/2) ≠ -1 := by
  refine ⟨by norm_num [bosThreshold], by norm_num [bosThreshold], ?_⟩
  norm_num [bosThreshold, magDelta, pyInt]

/-! ## Claim C9: sentence aggregation -/

theorem foldl_max_perm {l l2 : List SentTok} (h : l.Perm l2) :
    ∀ a : ℚ, l.foldl (fun acc u => max acc u.score) a
      = l2.foldl (fun acc u => max acc u.score) a := by
  induction h with
  | nil => intro a; rfl
  | cons x h2 ih => intro a; simp only [List.foldl_cons]; exact ih _
  | swap x y l => intro a; simp only [List.foldl_cons]; rw [sup_right_comm]
  | trans h1 h2 ih1 ih2 => intro a; exact (ih1 a).trans (ih2 a)

/-- The peak score of a sentence group does not depend on the order of its
tokens. -/
theorem peakScore_perm {l l2 : List SentTok} (h : l.Perm l2) :
    peakScore l = peakScore l2 := by
  induction h with
  | nil => rfl
  | cons x h2 ih =>
    simp only [peakScore]
    exact foldl_max_perm h2 x.score
  | swap x y l =>
    simp only [peakScore, List.foldl_cons]
    rw [max_comm]
  | trans h1 h2 ih1 ih2 => exact ih1.trans ih2

/-- Claim C9: The Sentence Aggregator assigns each returned sentence a score
equal to the peak (maximum) of its constituent tokens' scores; that peak is
independent of token order within the group (permutation-invariant); and
the returned sentence list is sorted in descending order of peak score. -/
theorem sentence_peak_and_order (tokens : List Token) (scored : ScoreMap ℚ) :
    (∀ s ∈ groupTokensBySentence tokens scored, s.score = peakScore s.tokens) ∧
    List.Pairwise (fun a b : ScoredSentence => b.score ≤ a.score)
      (groupTokensBySentence tokens scored) ∧
    (∀ l l2 : List SentTok, l.Perm l2 → peakScore l = peakScore l2) := by
  refine ⟨?_, ?_, fun l l2 h => peakScore_perm h⟩
  · intro s hs
    unfold groupTokensBySentence at hs
    rw [List.mem_mergeSort] at hs
    obtain ⟨g, hg, rfl⟩ := List.mem_map.mp hs
    rfl
  · unfold groupTokensBySentence
    have hsorted := @List.sorted_mergeSort ScoredSentence
      (fun a b => decide (b.score ≤ a.score))
      (fun a b c hab hbc => by
        simp only [decide_eq_true_eq] at hab hbc ⊢
        exact le_trans hbc hab)
      (fun a b => by
        simp only [Bool.or_eq_true, decide_eq_true_eq]
        exact le_total b.score a.score)
      ((buildGroups tokens scored).map fun g => mkScoredSentence g.1 g.2)
    exact hsorted.imp (fun hab => of_decide_eq_true hab)

/-- Witness for C9: three tokens scored 10, 50, 5 in one sentence have peak
score 50, independent of their order. -/
theorem sentence_peak_and_order_witness :
    peakScore [⟨1, "x", 10, 0, 0, "user"⟩, ⟨2, "y", 50, 0, 0, "user"⟩,
        ⟨3, "z", 5, 0, 0, "user"⟩]
      = peakScore [⟨2, "y", 50, 0, 0, "user"⟩, ⟨1, "x", 10, 0, 0, "user"⟩,
        ⟨3, "z", 5, 0, 0, "user"⟩] ∧
    peakScore [⟨1, "x", 10, 0, 0, "user"⟩, ⟨2, "y", 50, 0, 0, "user"⟩,
        ⟨3, "z", 5, 0, 0, "user"⟩] = 50 := by
  constructor
  · exact (sentence_peak_and_order [] []).2.2 _ _
      (List.Perm.swap (⟨2, "y", 50, 0, 0, "user"⟩ : SentTok)
        (⟨1, "x", 10, 0, 0, "user"⟩ : SentTok) [⟨3, "z", 5, 0, 0, "user"⟩])
  · norm_num [peakScore]

/-! ## Claim C10: `run` on an empty ScoreMap -/

/-- Claim C10: Whenever `compute_scores` returns an empty ScoreMap (as
Rolling Mean Voting does on a capture where no position ever earns a vote),
the strategy's `run` entry point raises while evaluating the
min/max/mean/median score statistics (`min()` of an empty sequence) instead
of returning a `(sentences, metadata)` result. -/
theorem empty_scores_run_raises (tokens : List Token) (minDistance : ℤ)
    (files : List StepFile)
    (h : votingComputeScores tokens minDistance files = .ok []) :
    votingRun tokens minDistance files
      = .error "ValueError: min() arg is an empty sequence" := by
  unfold votingRun
  simp only [bind, Except.bind, h]
  rfl

/-- Witness for C10: a capture with one token and no step files leaves the
vote dict empty, and `run` aborts in the statistics block. -/
theorem empty_scores_run_raises_witness :
    votingRun [⟨1, "b", 0, 0, "user"⟩] 50 []
      = .error "ValueError: min() arg is an empty sequence" :=
  empty_scores_run_raises [⟨1, "b", 0, 0, "user"⟩] 50 [] rfl

end HaloWeave
